import Mathlib

set_option maxRecDepth 100000

/-!
# Verification of the goRailsYourself crypto pipeline

A shallow embedding, in Lean 4, of the cryptographic encode/decode pipeline of
the `crypto` package (Rails-compatible message signing and encryption written
in Go), together with proofs and refutations of the specified properties.

Conventions of the embedding:

* Go byte slices and Go strings are both `List Nat`, one entry per byte
  (every byte is `< 256`; lemmas carry this as an explicit hypothesis where
  it matters).  the Go `nil` slice and the empty slice are both `[]`.
* Fallible Go functions return `Except String α` (the `String` is the Go
  error message) or `Option α`; a Go runtime panic is modelled as `none`
  or as an `Except.error` whose message starts with `panic`.
* The AES block cipher and the AEAD sealing primitive live in the Go
  standard library, outside this repository; they are taken as function
  parameters, so every theorem quantifies over them (their contracts —
  inversion, block length — become hypotheses).  SHA-1, HMAC and PBKDF2 are
  embedded concretely (bit-for-bit, per their RFCs as implemented by the Go packages
  `crypto/sha1`, `crypto/hmac` and `golang.org/x/crypto/pbkdf2`) because
  several claims state exact digest values.
* Randomness (the fresh IV / nonce an encryption call draws) is passed as an
  explicit argument.
-/

/-- All entries of a byte list are actual bytes. -/
def isBytes (bs : List Nat) : Bool :=
  bs.all (fun b => b < 256)

/-- The two-character wire delimiter `--` (two ASCII dashes, byte 45). -/
def dd : List Nat := [45, 45]

/-- Go `strings.Split(s, "--")`: split around every non-overlapping
occurrence of the delimiter, scanning left to right.  `splitDD [] = [[]]`
exactly as in Go. -/
def splitDD : List Nat → List (List Nat)
  | [] => [[]]
  | [b] => [[b]]
  | b :: c :: rest =>
    if b = 45 ∧ c = 45 then [] :: splitDD rest
    else
      match splitDD (c :: rest) with
      | [] => [[b]]
      | s :: ss => (b :: s) :: ss

/-- Go `bytes.SplitN(s, "--", n)`: like `splitDD` but the last of the `n`
pieces is the unsplit remainder. -/
def splitDDN (n : Nat) (msg : List Nat) : List (List Nat) :=
  match n with
  | 0 => []
  | 1 => [msg]
  | k + 2 =>
    match msg with
    | [] => [[]]
    | [b] => [[b]]
    | b :: c :: rest =>
      if b = 45 ∧ c = 45 then [] :: splitDDN (k + 1) rest
      else
        match splitDDN (k + 2) (c :: rest) with
        | [] => [[b]]
        | s :: ss => (b :: s) :: ss

/-! ## PKCS7 padding codec (`crypto/pkcs7_padding.go`, current version) -/

/-- The function `PKCS7Pad` from `pkcs7_padding.go`: pad to a multiple of 16 with copies of
the pad length; an input whose length is already a multiple of 16 (the
`dataLen%16 == 0` branch) receives **no** padding.  The appended byte value is
`byte(paddingLen)`; since `paddingLen ≤ 15` the Go byte conversion is the
identity. -/
def PKCS7Pad (data : List Nat) : List Nat :=
  let dataLen := data.length
  let validLen := if dataLen % 16 = 0 then dataLen else (dataLen / 16 + 1) * 16
  let paddingLen := validLen - dataLen
  data ++ List.replicate paddingLen paddingLen

/-- The function `PKCS7Unpad` from `pkcs7_padding.go`: read the last byte as the padding
length and strip that many bytes when it is `< 16`.  `none` models the two Go
runtime panics: the `data[dataLen-1]` read on an empty slice, and the slice
expression `data[:dataLen-paddingLen]` when the last byte exceeds the
length. -/
def PKCS7Unpad (data : List Nat) : Option (List Nat) :=
  match data.getLast? with
  | none => none
  | some paddingLen =>
    if paddingLen < 16 then
      if paddingLen ≤ data.length then some (data.take (data.length - paddingLen))
      else none
    else some data

/-! The repository sources also carry a superseded variant of the padding
codec (an older `PKCS7Pad`/`PKCS7Unpad`): it always appends a nonempty pad
(a full extra block on aligned input) and bounds the strip by the data
length.  It is embedded here for reference. -/

/-- The older `PKCS7Pad`: `validLen := (dataLen/16+1)*16` unconditionally, so
aligned input gets a full block of padding. -/
def PKCS7PadAlt (data : List Nat) : List Nat :=
  let dataLen := data.length
  let validLen := (dataLen / 16 + 1) * 16
  let paddingLen := validLen - dataLen
  data ++ List.replicate paddingLen paddingLen

/-- The older `PKCS7Unpad`: explicit empty-input case, and the strip is
guarded by the data length rather than by the block size. -/
def PKCS7UnpadAlt (data : List Nat) : List Nat :=
  match data.getLast? with
  | none => []
  | some paddingLen =>
    if paddingLen = data.length then []
    else if paddingLen < data.length then data.take (data.length - paddingLen)
    else data

/-! ### Basic facts about the padding codec -/

theorem replicate_getLast (p x : Nat) (h : 0 < p) :
    (List.replicate p x).getLast? = some x := by
  obtain ⟨n, rfl⟩ : ∃ n, p = n + 1 := ⟨p - 1, by omega⟩
  rw [List.replicate_succ', List.getLast?_append_of_ne_nil _ (by simp)]
  rfl

/-- On unaligned input, `PKCS7Pad` appends `16 - len % 16` copies of that
value. -/
theorem PKCS7Pad_unaligned (data : List Nat) (h : data.length % 16 ≠ 0) :
    PKCS7Pad data =
      data ++ List.replicate (16 - data.length % 16) (16 - data.length % 16) := by
  have := Nat.div_add_mod data.length 16
  have hlt : data.length % 16 < 16 := Nat.mod_lt _ (by norm_num)
  simp only [PKCS7Pad, if_neg h]
  have : (data.length / 16 + 1) * 16 - data.length = 16 - data.length % 16 := by omega
  rw [this]

/-- On aligned input, `PKCS7Pad` is the identity. -/
theorem PKCS7Pad_aligned (data : List Nat) (h : data.length % 16 = 0) :
    PKCS7Pad data = data := by
  simp [PKCS7Pad, h]

/-- The padded length is always a multiple of 16. -/
theorem PKCS7Pad_length_mod (data : List Nat) : (PKCS7Pad data).length % 16 = 0 := by
  have hmod := Nat.div_add_mod data.length 16
  have hlt : data.length % 16 < 16 := Nat.mod_lt _ (by norm_num)
  by_cases h : data.length % 16 = 0
  · rw [PKCS7Pad_aligned data h]
    exact h
  · rw [PKCS7Pad_unaligned data h]
    simp only [List.length_append, List.length_replicate]
    omega

/-- The padded form of a nonempty buffer has at least one block. -/
theorem PKCS7Pad_length_ge (data : List Nat) (h : data ≠ []) :
    16 ≤ (PKCS7Pad data).length := by
  have hmod := Nat.div_add_mod data.length 16
  have hlt : data.length % 16 < 16 := Nat.mod_lt _ (by norm_num)
  have hpos : 0 < data.length := List.length_pos.mpr h
  by_cases ha : data.length % 16 = 0
  · rw [PKCS7Pad_aligned data ha]
    omega
  · rw [PKCS7Pad_unaligned data ha]
    simp only [List.length_append, List.length_replicate]
    omega

/-- Padding preserves byte-ness (pad bytes are at most 15). -/
theorem PKCS7Pad_isBytes (data : List Nat) (h : isBytes data = true) :
    isBytes (PKCS7Pad data) = true := by
  have hlt : data.length % 16 < 16 := Nat.mod_lt _ (by norm_num)
  by_cases ha : data.length % 16 = 0
  · rw [PKCS7Pad_aligned data ha]
    exact h
  · rw [PKCS7Pad_unaligned data ha]
    simp only [isBytes, List.all_append, Bool.and_eq_true]
    refine ⟨by simpa [isBytes] using h, ?_⟩
    simp only [List.all_eq_true, decide_eq_true_eq]
    intro b hb
    have := List.eq_of_mem_replicate hb
    omega

/-! ## Claims C5, C6, C10 — the padding codec -/

/-- Claim C5, counterexample: On a 16-byte (block-aligned) input the current
`PKCS7Pad` appends nothing at all: the output is the input itself, not the
claimed input plus a full extra block of sixteen padding bytes. -/
theorem C5_pad_counterexample :
    PKCS7Pad (List.replicate 16 0) = List.replicate 16 0 := by decide

/-- Claim C5, amended: `PKCS7Pad` appends `p` copies of the byte `p`, where
`p = 0` when the input length is a multiple of 16 and `p = 16 - len % 16`
(so `1 ≤ p ≤ 15`) otherwise; the result length is always a multiple of 16.
The pad is zero-length exactly on block-aligned input. -/
theorem C5_pad_amended (data : List Nat) :
    PKCS7Pad data =
      data ++
        List.replicate ((16 - data.length % 16) % 16) ((16 - data.length % 16) % 16) ∧
    (PKCS7Pad data).length % 16 = 0 ∧
    (16 - data.length % 16) % 16 ≤ 15 := by
  have hmod := Nat.div_add_mod data.length 16
  have hlt : data.length % 16 < 16 := Nat.mod_lt _ (by norm_num)
  refine ⟨?_, ?_, by omega⟩
  · by_cases h : data.length % 16 = 0
    · have : (16 - data.length % 16) % 16 = 0 := by omega
      rw [this, PKCS7Pad_aligned data h]
      simp
    · have : (16 - data.length % 16) % 16 = 16 - data.length % 16 := by omega
      rw [this, PKCS7Pad_unaligned data h]
  · by_cases h : data.length % 16 = 0
    · rw [PKCS7Pad_aligned data h]; exact h
    · rw [PKCS7Pad_unaligned data h]
      simp only [List.length_append, List.length_replicate]
      omega

/-- Claim C6, counterexample: The pad/unpad round trip fails on a 16-byte input
ending in the byte `0x01`: padding appends nothing, and unpadding then strips
one byte of real data. -/
theorem C6_roundtrip_counterexample :
    PKCS7Unpad (PKCS7Pad (List.replicate 15 0 ++ [1])) ≠
      some (List.replicate 15 0 ++ [1]) := by decide

/-- The content of the amended pad/unpad round trip, as a shared helper: the
round trip holds off the block boundary, and on the boundary when the final
byte is 0 (zero bytes are stripped) or at least 16 (nothing is stripped). -/
theorem PKCS7Unpad_PKCS7Pad (data : List Nat)
    (h : data.length % 16 ≠ 0 ∨
      (data ≠ [] ∧ (data.getLastD 0 = 0 ∨ 16 ≤ data.getLastD 0))) :
    PKCS7Unpad (PKCS7Pad data) = some data := by
  by_cases halign : data.length % 16 = 0
  · -- aligned: the hypothesis forces a nonempty input with last byte 0 or ≥ 16
    rcases h with h | ⟨hne, hlast⟩
    · exact absurd halign h
    · rw [PKCS7Pad_aligned data halign]
      obtain ⟨b, hb⟩ : ∃ b, data.getLast? = some b := by
        cases hd : data.getLast? with
        | none => exact absurd (List.getLast?_eq_none_iff.mp hd) hne
        | some b => exact ⟨b, rfl⟩
      have hbd : data.getLastD 0 = b := by
        rw [List.getLastD_eq_getLast?, hb, Option.getD_some]
      rw [hbd] at hlast
      simp only [PKCS7Unpad, hb]
      rcases hlast with hb0 | hb16
      · subst hb0
        rw [if_pos (by omega), if_pos (by omega), Nat.sub_zero, List.take_length]
      · rw [if_neg (by omega)]
  · -- unaligned: a pad of `p ∈ [1,15]` copies of `p` is appended and stripped
    set p := 16 - data.length % 16 with hp
    have hlt : data.length % 16 < 16 := Nat.mod_lt _ (by norm_num)
    have hppos : 0 < p := by omega
    have hplt : p < 16 := by omega
    have hrep : List.replicate p p ≠ ([] : List Nat) := by
      intro hcon
      have := congrArg List.length hcon
      simp at this
      omega
    have hlastq : (data ++ List.replicate p p).getLast? = some p := by
      rw [List.getLast?_append_of_ne_nil _ hrep, replicate_getLast _ _ hppos]
    rw [PKCS7Pad_unaligned data halign, ← hp]
    simp only [PKCS7Unpad, hlastq]
    rw [if_pos hplt, if_pos (by simp)]
    have hlen2 : (data ++ List.replicate p p).length - p = data.length := by simp
    rw [hlen2, List.take_left]

/-- Claim C6, amended: The round trip `PKCS7Unpad (PKCS7Pad data) = data` holds
whenever the input length is not a multiple of 16, and also on nonempty
block-aligned input whose final byte is 0 (zero bytes are stripped) or at
least 16 (nothing is stripped); it fails exactly on block-aligned inputs
whose final byte lies in `[1, 15]` — where that many real data bytes are
stripped — and on the empty input, where unpad panics. -/
theorem C6_roundtrip_amended (data : List Nat)
    (h : data.length % 16 ≠ 0 ∨
      (data ≠ [] ∧ (data.getLastD 0 = 0 ∨ 16 ≤ data.getLastD 0))) :
    PKCS7Unpad (PKCS7Pad data) = some data :=
  PKCS7Unpad_PKCS7Pad data h

/-- Claim C6, amended, witness: a concrete unaligned input and a concrete
block-aligned input with final byte 0 both round-trip. -/
theorem C6_roundtrip_witness :
    PKCS7Unpad (PKCS7Pad [5, 5, 5]) = some [5, 5, 5] ∧
    PKCS7Unpad (PKCS7Pad (List.replicate 15 7 ++ [0])) =
      some (List.replicate 15 7 ++ [0]) :=
  ⟨C6_roundtrip_amended [5, 5, 5] (by decide),
   C6_roundtrip_amended (List.replicate 15 7 ++ [0]) (by decide)⟩

/-- Claim C10, counterexample: `PKCS7Unpad` is *not* total: on the empty input
the Go code reads `data[len(data)-1]` out of bounds and panics (modelled by
`none`). -/
theorem C10_unpad_counterexample : PKCS7Unpad [] = none := by decide

/-- Claim C10, amended: `PKCS7Unpad` returns a value (no panic) on every
nonempty input whose final byte, when it is a padding length below 16, does
not exceed the input length; on the empty input, and when the final byte is a
padding length larger than the input, the Go code panics. -/
theorem C10_unpad_amended (data : List Nat) (hne : data ≠ [])
    (hbound : data.getLastD 0 < 16 → data.getLastD 0 ≤ data.length) :
    (PKCS7Unpad data).isSome := by
  obtain ⟨b, hb⟩ : ∃ b, data.getLast? = some b := by
    cases hd : data.getLast? with
    | none => exact absurd (List.getLast?_eq_none_iff.mp hd) hne
    | some b => exact ⟨b, rfl⟩
  have hbd : data.getLastD 0 = b := by
    rw [List.getLastD_eq_getLast?, hb, Option.getD_some]
  simp only [PKCS7Unpad, hb]
  by_cases h16 : b < 16
  · rw [if_pos h16, if_pos (by rw [hbd] at hbound; exact hbound h16)]
    rfl
  · rw [if_neg h16]
    rfl

/-- Claim C10, amended, witness. -/
theorem C10_unpad_witness : [(0 : Nat)] ≠ [] ∧ (PKCS7Unpad [0]).isSome :=
  ⟨by decide, C10_unpad_amended [0] (by decide) (fun _ => by decide)⟩

/-! ## Base64 (Go `encoding/base64` StdEncoding) and lowercase hex -/

/-- The standard base64 alphabet, as the character for a 6-bit value. -/
def b64Char (n : Nat) : Nat :=
  if n < 26 then 65 + n
  else if n < 52 then 97 + (n - 26)
  else if n < 62 then 48 + (n - 52)
  else if n = 62 then 43
  else 47

/-- Inverse alphabet lookup; `none` on a character outside the alphabet
(including the pad character `=`). -/
def b64Index (c : Nat) : Option Nat :=
  if 65 ≤ c ∧ c ≤ 90 then some (c - 65)
  else if 97 ≤ c ∧ c ≤ 122 then some (c - 97 + 26)
  else if 48 ≤ c ∧ c ≤ 57 then some (c - 48 + 52)
  else if c = 43 then some 62
  else if c = 47 then some 63
  else none

/-- The function `base64.StdEncoding.EncodeToString`: three input bytes become four
alphabet characters; a final group of one or two bytes is completed with
`=` pads (byte 61). -/
def b64Encode : List Nat → List Nat
  | [] => []
  | [b1] => [b64Char (b1 / 4), b64Char (b1 % 4 * 16), 61, 61]
  | [b1, b2] => [b64Char (b1 / 4), b64Char (b1 % 4 * 16 + b2 / 16),
      b64Char (b2 % 16 * 4), 61]
  | b1 :: b2 :: b3 :: rest =>
      b64Char (b1 / 4) :: b64Char (b1 % 4 * 16 + b2 / 16) ::
        b64Char (b2 % 16 * 4 + b3 / 64) :: b64Char (b3 % 64) :: b64Encode rest

/-- The function `base64.StdEncoding.DecodeString`, strict: four-character quanta, with
`=` padding allowed only in the final quantum; `none` on any malformed
input (this models the non-nil error return). -/
def b64Decode : List Nat → Option (List Nat)
  | [] => some []
  | c1 :: c2 :: c3 :: c4 :: rest =>
    if c3 = 61 ∧ c4 = 61 ∧ rest = [] then do
      let d1 ← b64Index c1
      let d2 ← b64Index c2
      some [d1 * 4 + d2 / 16]
    else if c4 = 61 ∧ rest = [] then do
      let d1 ← b64Index c1
      let d2 ← b64Index c2
      let d3 ← b64Index c3
      some [d1 * 4 + d2 / 16, d2 % 16 * 16 + d3 / 4]
    else do
      let d1 ← b64Index c1
      let d2 ← b64Index c2
      let d3 ← b64Index c3
      let d4 ← b64Index c4
      let tail ← b64Decode rest
      some ((d1 * 4 + d2 / 16) :: (d2 % 16 * 16 + d3 / 4) :: (d3 % 4 * 64 + d4) :: tail)
  | _ => none

/-- The function `base64.StdEncoding.DecodeString` with the error discarded, as the old
`MessageVerifier.Verify` does (it overwrites `err` without checking): the
bytes decoded before the first malformed quantum are kept. -/
def b64DecodeLoose : List Nat → List Nat
  | c1 :: c2 :: c3 :: c4 :: rest =>
    if c3 = 61 ∧ c4 = 61 then
      match b64Index c1, b64Index c2 with
      | some d1, some d2 => [d1 * 4 + d2 / 16]
      | _, _ => []
    else if c4 = 61 then
      match b64Index c1, b64Index c2, b64Index c3 with
      | some d1, some d2, some d3 => [d1 * 4 + d2 / 16, d2 % 16 * 16 + d3 / 4]
      | _, _, _ => []
    else
      match b64Index c1, b64Index c2, b64Index c3, b64Index c4 with
      | some d1, some d2, some d3, some d4 =>
          (d1 * 4 + d2 / 16) :: (d2 % 16 * 16 + d3 / 4) :: (d3 % 4 * 64 + d4) ::
            b64DecodeLoose rest
      | _, _, _, _ => []
  | _ => []

/-- Lowercase hex digit. -/
def hexChar (n : Nat) : Nat :=
  if n < 10 then 48 + n else 97 + (n - 10)

/-- The function `encoding/hex.EncodeToString`, lowercase. -/
def hexEncode : List Nat → List Nat
  | [] => []
  | b :: bs => hexChar (b / 16) :: hexChar (b % 16) :: hexEncode bs

/-! ### Alphabet facts -/

theorem b64Index_b64Char : ∀ n, n < 64 → b64Index (b64Char n) = some n := by decide

theorem b64Char_ne_pad (n : Nat) : b64Char n ≠ 61 := by
  unfold b64Char
  split
  · omega
  · split
    · omega
    · split
      · omega
      · split
        · omega
        · omega

theorem b64Char_ne_dash (n : Nat) : b64Char n ≠ 45 := by
  unfold b64Char
  split
  · omega
  · split
    · omega
    · split
      · omega
      · split
        · omega
        · omega

/-- No byte of a base64 encoding is an ASCII dash. -/
theorem b64Encode_no_dash : ∀ bs, 45 ∉ b64Encode bs := by
  intro bs
  induction bs using b64Encode.induct with
  | case1 => simp [b64Encode]
  | case2 b1 =>
    simp [b64Encode]
    refine ⟨?_, ?_⟩ <;> exact fun hc => b64Char_ne_dash _ hc.symm
  | case3 b1 b2 =>
    simp [b64Encode]
    refine ⟨?_, ?_, ?_⟩ <;> exact fun hc => b64Char_ne_dash _ hc.symm
  | case4 b1 b2 b3 rest ih =>
    simp [b64Encode]
    refine ⟨?_, ?_, ?_, ?_, ?_⟩
    · exact fun hc => b64Char_ne_dash _ hc.symm
    · exact fun hc => b64Char_ne_dash _ hc.symm
    · exact fun hc => b64Char_ne_dash _ hc.symm
    · exact fun hc => b64Char_ne_dash _ hc.symm
    · intro hc
      exact ih (by simpa using hc)

/-- No byte of a lowercase hex encoding is an ASCII dash. -/
theorem hexEncode_no_dash : ∀ bs, 45 ∉ hexEncode bs := by
  intro bs
  induction bs with
  | nil => simp [hexEncode]
  | cons b bs ih =>
    simp [hexEncode]
    have h1 : hexChar (b / 16) ≠ 45 := by unfold hexChar; split <;> omega
    have h2 : hexChar (b % 16) ≠ 45 := by unfold hexChar; split <;> omega
    exact ⟨fun hc => h1 hc.symm, fun hc => h2 hc.symm, fun hc => ih hc⟩

/-! ### Split lemmas -/

theorem splitDD_of_no_dash (a : List Nat) (h : 45 ∉ a) : splitDD a = [a] := by
  induction a with
  | nil => rfl
  | cons x xs ih =>
    cases xs with
    | nil => rfl
    | cons y ys =>
      have hx : x ≠ 45 := fun hc => h (by simp [hc])
      have ht : 45 ∉ y :: ys := fun hc => h (List.mem_cons_of_mem _ hc)
      rw [splitDD, if_neg (fun hc => hx hc.1), ih ht]

theorem splitDD_append (a b : List Nat) (ha : 45 ∉ a) :
    splitDD (a ++ 45 :: 45 :: b) = a :: splitDD b := by
  induction a with
  | nil => rfl
  | cons x xs ih =>
    have hx : x ≠ 45 := fun hc => ha (by simp [hc])
    have hxs : 45 ∉ xs := fun hc => ha (List.mem_cons_of_mem _ hc)
    rw [List.cons_append]
    cases xs with
    | nil =>
      rw [List.nil_append, splitDD, if_neg (fun hc => hx hc.1)]
      rw [show splitDD (45 :: 45 :: b) = [] :: splitDD b from rfl]
    | cons y ys =>
      have hih := ih hxs
      rw [List.cons_append] at hih
      rw [List.cons_append, splitDD, if_neg (fun hc => hx hc.1), hih]

theorem splitDDN_of_no_dash (k : Nat) (a : List Nat) (h : 45 ∉ a) :
    splitDDN (k + 2) a = [a] := by
  induction a with
  | nil => rfl
  | cons x xs ih =>
    cases xs with
    | nil => rfl
    | cons y ys =>
      have hx : x ≠ 45 := fun hc => h (by simp [hc])
      have ht : 45 ∉ y :: ys := fun hc => h (List.mem_cons_of_mem _ hc)
      rw [splitDDN, if_neg (fun hc => hx hc.1), ih ht]

theorem splitDDN_append (k : Nat) (a b : List Nat) (ha : 45 ∉ a) :
    splitDDN (k + 2) (a ++ 45 :: 45 :: b) = a :: splitDDN (k + 1) b := by
  induction a with
  | nil => rfl
  | cons x xs ih =>
    have hx : x ≠ 45 := fun hc => ha (by simp [hc])
    have hxs : 45 ∉ xs := fun hc => ha (List.mem_cons_of_mem _ hc)
    rw [List.cons_append]
    cases xs with
    | nil =>
      rw [List.nil_append, splitDDN, if_neg (fun hc => hx hc.1)]
      rw [show splitDDN (k + 2) (45 :: 45 :: b) = [] :: splitDDN (k + 1) b from rfl]
    | cons y ys =>
      have hih := ih hxs
      rw [List.cons_append] at hih
      rw [List.cons_append, splitDDN, if_neg (fun hc => hx hc.1), hih]

/-- Splitting a two-part token. -/
theorem splitDD_two (a b : List Nat) (ha : 45 ∉ a) (hb : 45 ∉ b) :
    splitDD (a ++ dd ++ b) = [a, b] := by
  have e : a ++ dd ++ b = a ++ 45 :: 45 :: b := by simp [dd]
  rw [e, splitDD_append _ _ ha, splitDD_of_no_dash _ hb]

/-- Splitting a three-part token. -/
theorem splitDD_three (a b c : List Nat) (ha : 45 ∉ a) (hb : 45 ∉ b) (hc : 45 ∉ c) :
    splitDD (a ++ dd ++ b ++ dd ++ c) = [a, b, c] := by
  have e : a ++ dd ++ b ++ dd ++ c = a ++ 45 :: 45 :: (b ++ 45 :: 45 :: c) := by
    simp [dd]
  rw [e, splitDD_append _ _ ha, splitDD_append _ _ hb, splitDD_of_no_dash _ hc]

/-- The effect of `SplitN 3` on a three-part token (the last part may contain anything). -/
theorem splitDDN3_three (a b c : List Nat) (ha : 45 ∉ a) (hb : 45 ∉ b) :
    splitDDN 3 (a ++ dd ++ b ++ dd ++ c) = [a, b, c] := by
  have e : a ++ dd ++ b ++ dd ++ c = a ++ 45 :: 45 :: (b ++ 45 :: 45 :: c) := by
    simp [dd]
  rw [e, show (3 : Nat) = 1 + 2 from rfl, splitDDN_append 1 _ _ ha]
  rw [show (1 : Nat) + 1 = 0 + 2 from rfl, splitDDN_append 0 _ _ hb]
  rw [show (0 : Nat) + 1 = 1 from rfl, show splitDDN 1 c = [c] from by rw [splitDDN]]

/-! ### Base64 round trips -/

theorem b64Decode_b64Encode :
    ∀ bs : List Nat, isBytes bs = true → b64Decode (b64Encode bs) = some bs := by
  intro bs
  induction bs using b64Encode.induct with
  | case1 => intro _; rfl
  | case2 b1 =>
    intro hB
    have hb1 : b1 < 256 := by simpa [isBytes] using hB
    have h1 : b1 / 4 < 64 := by omega
    have h2 : b1 % 4 * 16 < 64 := by omega
    rw [b64Encode, b64Decode, if_pos ⟨rfl, rfl, rfl⟩]
    rw [b64Index_b64Char _ h1, b64Index_b64Char _ h2]
    simp only [Option.bind_eq_bind, Option.some_bind, Option.some.injEq, List.cons.injEq,
      and_true]
    omega
  | case3 b1 b2 =>
    intro hB
    have hb : b1 < 256 ∧ b2 < 256 := by simpa [isBytes] using hB
    obtain ⟨hb1, hb2⟩ := hb
    have h1 : b1 / 4 < 64 := by omega
    have h2 : b1 % 4 * 16 + b2 / 16 < 64 := by omega
    have h3 : b2 % 16 * 4 < 64 := by omega
    rw [b64Encode, b64Decode]
    rw [if_neg (fun hc => b64Char_ne_pad _ hc.1)]
    rw [if_pos ⟨rfl, rfl⟩]
    rw [b64Index_b64Char _ h1, b64Index_b64Char _ h2, b64Index_b64Char _ h3]
    simp only [Option.bind_eq_bind, Option.some_bind, Option.some.injEq, List.cons.injEq,
      and_true]
    omega
  | case4 b1 b2 b3 rest ih =>
    intro hB
    have hb : b1 < 256 ∧ b2 < 256 ∧ b3 < 256 ∧ isBytes rest = true := by
      simpa [isBytes] using hB
    obtain ⟨hb1, hb2, hb3, hrest⟩ := hb
    have h1 : b1 / 4 < 64 := by omega
    have h2 : b1 % 4 * 16 + b2 / 16 < 64 := by omega
    have h3 : b2 % 16 * 4 + b3 / 64 < 64 := by omega
    have h4 : b3 % 64 < 64 := by omega
    rw [b64Encode, b64Decode]
    rw [if_neg (fun hc => b64Char_ne_pad _ hc.1)]
    rw [if_neg (fun hc => b64Char_ne_pad _ hc.1)]
    rw [b64Index_b64Char _ h1, b64Index_b64Char _ h2, b64Index_b64Char _ h3,
      b64Index_b64Char _ h4, ih hrest]
    simp only [Option.bind_eq_bind, Option.some_bind, Option.some.injEq, List.cons.injEq,
      and_true]
    omega

theorem b64DecodeLoose_b64Encode :
    ∀ bs : List Nat, isBytes bs = true → b64DecodeLoose (b64Encode bs) = bs := by
  intro bs
  induction bs using b64Encode.induct with
  | case1 => intro _; rfl
  | case2 b1 =>
    intro hB
    have hb1 : b1 < 256 := by simpa [isBytes] using hB
    have h1 : b1 / 4 < 64 := by omega
    have h2 : b1 % 4 * 16 < 64 := by omega
    rw [b64Encode, b64DecodeLoose, if_pos ⟨rfl, rfl⟩]
    rw [b64Index_b64Char _ h1, b64Index_b64Char _ h2]
    simp only [List.cons.injEq, and_true]
    omega
  | case3 b1 b2 =>
    intro hB
    have hb : b1 < 256 ∧ b2 < 256 := by simpa [isBytes] using hB
    obtain ⟨hb1, hb2⟩ := hb
    have h1 : b1 / 4 < 64 := by omega
    have h2 : b1 % 4 * 16 + b2 / 16 < 64 := by omega
    have h3 : b2 % 16 * 4 < 64 := by omega
    rw [b64Encode, b64DecodeLoose]
    rw [if_neg (fun hc => b64Char_ne_pad _ hc.1)]
    rw [if_pos rfl]
    rw [b64Index_b64Char _ h1, b64Index_b64Char _ h2, b64Index_b64Char _ h3]
    simp only [List.cons.injEq, and_true]
    omega
  | case4 b1 b2 b3 rest ih =>
    intro hB
    have hb : b1 < 256 ∧ b2 < 256 ∧ b3 < 256 ∧ isBytes rest = true := by
      simpa [isBytes] using hB
    obtain ⟨hb1, hb2, hb3, hrest⟩ := hb
    have h1 : b1 / 4 < 64 := by omega
    have h2 : b1 % 4 * 16 + b2 / 16 < 64 := by omega
    have h3 : b2 % 16 * 4 + b3 / 64 < 64 := by omega
    have h4 : b3 % 64 < 64 := by omega
    rw [b64Encode, b64DecodeLoose]
    rw [if_neg (fun hc => b64Char_ne_pad _ hc.1)]
    rw [if_neg (fun hc => b64Char_ne_pad _ hc)]
    rw [b64Index_b64Char _ h1, b64Index_b64Char _ h2, b64Index_b64Char _ h3,
      b64Index_b64Char _ h4, ih hrest]
    simp only [List.cons.injEq, and_true]
    omega

/-- Base64 characters are bytes. -/
theorem b64Char_lt (n : Nat) : b64Char n < 256 := by
  unfold b64Char
  split
  · omega
  · split
    · omega
    · split
      · omega
      · split
        · omega
        · omega

/-- A base64 encoding consists of bytes. -/
theorem b64Encode_isBytes : ∀ bs, isBytes (b64Encode bs) = true := by
  intro bs
  induction bs using b64Encode.induct with
  | case1 => rfl
  | case2 b1 =>
    simp [b64Encode, isBytes, b64Char_lt]
  | case3 b1 b2 =>
    simp [b64Encode, isBytes, b64Char_lt]
  | case4 b1 b2 b3 rest ih =>
    simp only [b64Encode, isBytes, List.all_cons, Bool.and_eq_true, decide_eq_true_eq]
    refine ⟨b64Char_lt _, b64Char_lt _, b64Char_lt _, b64Char_lt _, ?_⟩
    simpa [isBytes] using ih

/-- Bytes of a concatenation. -/
theorem isBytes_append (a b : List Nat) :
    isBytes (a ++ b) = (isBytes a && isBytes b) := by
  simp [isBytes]

/-- Bytes restrict to sublists. -/
theorem isBytes_subset {l s : List Nat} (hs : s ⊆ l) (h : isBytes l = true) :
    isBytes s = true := by
  simp only [isBytes, List.all_eq_true, decide_eq_true_eq] at *
  exact fun b hb => h b (hs hb)

/-! ## SHA-1, HMAC, PBKDF2 (Go `crypto/sha1`, `crypto/hmac`,
`golang.org/x/crypto/pbkdf2`)

These Go-standard-library primitives are embedded concretely and executably
(fuel-based recursion where the natural recursion is on a shrinking list, so
that the kernel can evaluate them) because several claims state exact digest
values.  `sha1` is validated below against the FIPS 180 `abc` test vector. -/

/-- Reduce modulo `2^32`. -/
def w32 (n : Nat) : Nat := n % 4294967296

/-- Rotate a 32-bit word left by `k` (intended for `x < 2^32`, `0 < k < 32`). -/
def rotl32 (x k : Nat) : Nat := (x * 2 ^ k) % 4294967296 + x / 2 ^ (32 - k)

/-- Big-endian 32-bit words from bytes (length a multiple of 4). -/
def bytesToWords : List Nat → List Nat
  | a :: b :: c :: d :: rest =>
      (a * 16777216 + b * 65536 + c * 256 + d) :: bytesToWords rest
  | _ => []

/-- A 32-bit word as four big-endian bytes. -/
def wordBytes (x : Nat) : List Nat :=
  [x / 16777216 % 256, x / 65536 % 256, x / 256 % 256, x % 256]

/-- A 64-bit value as eight big-endian bytes. -/
def be64 (n : Nat) : List Nat :=
  [n / 72057594037927936 % 256, n / 281474976710656 % 256, n / 1099511627776 % 256,
   n / 4294967296 % 256, n / 16777216 % 256, n / 65536 % 256, n / 256 % 256, n % 256]

/-- A 32-bit value as four big-endian bytes. -/
def be32 (n : Nat) : List Nat :=
  [n / 16777216 % 256, n / 65536 % 256, n / 256 % 256, n % 256]

/-- SHA-1 message padding: `0x80`, zeros, then the bit length, closing a
64-byte boundary. -/
def sha1Pad (msg : List Nat) : List Nat :=
  msg ++ 128 :: List.replicate ((64 - (msg.length + 9) % 64) % 64) 0 ++
    be64 (msg.length * 8)

/-- The SHA-1 round constants. -/
def sha1K (t : Nat) : Nat :=
  if t < 20 then 1518500249
  else if t < 40 then 1859775393
  else if t < 60 then 2400959708
  else 3395469782

/-- The SHA-1 round functions (Ch, Parity, Maj, Parity); `^^^ 4294967295`
is 32-bit complement. -/
def sha1F (t b c d : Nat) : Nat :=
  if t < 20 then (b &&& c) ||| ((b ^^^ 4294967295) &&& d)
  else if t < 40 then b ^^^ c ^^^ d
  else if t < 60 then (b &&& c) ||| (b &&& d) ||| (c &&& d)
  else b ^^^ c ^^^ d

/-- Extend the 16 schedule words by `n` more. -/
def sha1Extend : List Nat → Nat → List Nat
  | ws, 0 => ws
  | ws, n + 1 =>
      let L := ws.length
      sha1Extend (ws ++ [rotl32 ((ws.getD (L - 3) 0) ^^^ (ws.getD (L - 8) 0) ^^^
        (ws.getD (L - 14) 0) ^^^ (ws.getD (L - 16) 0)) 1]) n

/-- The 80 SHA-1 rounds over one schedule. -/
def sha1Loop : List Nat → Nat → Nat × Nat × Nat × Nat × Nat → Nat × Nat × Nat × Nat × Nat
  | [], _, st => st
  | w :: ws, t, (a, b, c, d, e) =>
      sha1Loop ws (t + 1)
        (w32 (rotl32 a 5 + sha1F t b c d + e + sha1K t + w), a, rotl32 b 30, c, d)

/-- Process the padded message in 64-byte blocks (the first argument is fuel,
always at least the number of blocks, so the recursion is structural and the
kernel can evaluate it). -/
def sha1Blocks :
    Nat → Nat × Nat × Nat × Nat × Nat → List Nat → Nat × Nat × Nat × Nat × Nat
  | 0, h, _ => h
  | _ + 1, h, [] => h
  | fuel + 1, (h0, h1, h2, h3, h4), x :: rest =>
      let sched := sha1Extend (bytesToWords ((x :: rest).take 64)) 64
      let (a, b, c, d, e) := sha1Loop sched 0 (h0, h1, h2, h3, h4)
      sha1Blocks fuel
        (w32 (h0 + a), w32 (h1 + b), w32 (h2 + c), w32 (h3 + d), w32 (h4 + e))
        ((x :: rest).drop 64)

/-- SHA-1 of a byte list, as its 20 digest bytes (Go `crypto/sha1`). -/
def sha1 (msg : List Nat) : List Nat :=
  let padded := sha1Pad msg
  let (a, b, c, d, e) :=
    sha1Blocks padded.length (1732584193, 4023233417, 2562383102, 271733878, 3285377520)
      padded
  wordBytes a ++ wordBytes b ++ wordBytes c ++ wordBytes d ++ wordBytes e

/-- The FIPS 180 `abc` test vector, pinning the embedding of SHA-1. -/
theorem sha1_abc :
    sha1 [97, 98, 99] =
      [169, 153, 62, 54, 71, 6, 129, 106, 186, 62, 37, 113,
       120, 80, 194, 108, 156, 208, 216, 157] := by decide

/-- Byte-wise XOR of two equal-length byte lists (truncating, like Go loops
bounded by the shorter length). -/
def zipXor (a b : List Nat) : List Nat := List.zipWith (fun x y => x ^^^ y) a b

/-- Go `crypto/hmac`: keys longer than the block size are hashed first; the
key is zero-padded to the block size; `0x5c`/`0x36` are the outer and inner
pads. -/
def hmacH (hash : List Nat → List Nat) (bs : Nat) (key msg : List Nat) : List Nat :=
  let k0 := if bs < key.length then hash key else key
  let kp := k0 ++ List.replicate (bs - k0.length) 0
  hash ((kp.map (fun b => b ^^^ 92)) ++ hash ((kp.map (fun b => b ^^^ 54)) ++ msg))

/-- The iteration chain of one PBKDF2 block: `U_{n+1} = HMAC(password, U_n)`,
xor-accumulated into `T`. -/
def pbkdf2Chain (password u t : List Nat) : Nat → List Nat
  | 0 => t
  | n + 1 =>
      let u2 := hmacH sha1 64 password u
      pbkdf2Chain password u2 (zipXor t u2) n

/-- One PBKDF2 output block: `U_1 = HMAC(password, salt ++ INT(i))`. -/
def pbkdf2Block (password salt : List Nat) (iter blockIdx : Nat) : List Nat :=
  let u1 := hmacH sha1 64 password (salt ++ be32 blockIdx)
  pbkdf2Chain password u1 u1 (iter - 1)

/-- The function `pbkdf2.Key` from `golang.org/x/crypto/pbkdf2`, specialised to SHA-1
(hash length 20) as the repository always uses it. -/
def pbkdf2Key (password salt : List Nat) (iter keyLen : Nat) : List Nat :=
  (((List.range ((keyLen + 19) / 20)).map
      (fun i => pbkdf2Block password salt iter (i + 1))).flatten).take keyLen

/-! ## MessageVerifier (`crypto/message_verifier.go`)

The verifier field `hasher` is a hash constructor; here the hash function
and its HMAC block size are passed as parameters (`sha1` with block size 64
for the SHA-1 configuration, and arbitrary functions to quantify over "all
supported hash functions").  Its serializer is `NullMsgSerializer` in every
embedded configuration: `Serialize` is `fmt.Sprint`, the identity on strings,
and `Unserialize` stores the input text in the string target and returns
`nil`. -/

/-- The function `NullMsgSerializer.Serialize` on a string value: `fmt.Sprint` is the
identity. -/
def nullSerialize (v : List Nat) : List Nat := v

/-- Decimal digits of a natural number (Go `fmt` `%d`); fuel-based so the
kernel can evaluate it. -/
def natDigits : Nat → Nat → List Nat
  | 0, _ => []
  | fuel + 1, n => if n < 10 then [48 + n] else natDigits fuel (n / 10) ++ [48 + n % 10]

/-- Go `fmt.Sprintf` of a nonnegative `%d` argument, as ASCII bytes. -/
def natDecimal (n : Nat) : List Nat := natDigits (n + 1) n

namespace MessageVerifier

/-- The function `DigestFor`: hex-encoded HMAC of the data under the configured secret and
hash; an unset (empty) secret returns the sentinel string `Y U SET NO
SECRET???!` exactly as the Go code does. -/
def DigestFor (hash : List Nat → List Nat) (bs : Nat) (secret data : List Nat) :
    List Nat :=
  if secret = [] then [89, 32, 85, 32, 83, 69, 84, 32, 78, 79, 32, 83, 69, 67,
    82, 69, 84, 63, 63, 63, 33]
  else hexEncode (hmacH hash bs secret data)

/-- The function `Generate` on a well-configured verifier: serialize, base64, digest,
join with `--`.  The serializer is a function parameter `ser`. -/
def Generate {α : Type} (hash : List Nat → List Nat) (bs : Nat) (secret : List Nat)
    (ser : α → List Nat) (value : α) : List Nat :=
  let str := b64Encode (ser value)
  str ++ dd ++ DigestFor hash bs secret str

/-- The function `secureCompare`: constant-time comparison — immediate `false` on length
mismatch, otherwise an or-accumulated byte xor. -/
def secureCompare (a b : List Nat) : Bool :=
  if a.length = b.length then
    decide ((zipXor a b).foldl (fun r x => r ||| x) 0 = 0)
  else false

/-- The function `Verify` with the `NullMsgSerializer` target (a Go string): the
`checkInit` secret guard, the empty-message guard, the two-segment split, the
constant-time digest comparison, and then the base64 decode whose error the
Go code discards (`err` is overwritten by the `Unserialize` result, and the
null serializer never fails), modelled by `b64DecodeLoose`. -/
def Verify (hash : List Nat → List Nat) (bs : Nat) (secret : List Nat)
    (msg : List Nat) : Except String (List Nat) :=
  if secret = [] then .error "Secret not set"
  else if msg = [] then .error "Invalid signature - empty message"
  else
    let dataDigest := splitDD msg
    if dataDigest.length = 2 then
      let data := dataDigest.getD 0 []
      let digest := dataDigest.getD 1 []
      if secureCompare digest (DigestFor hash bs secret data) then
        .ok (b64DecodeLoose data)
      else .error "Invalid signature - bad data"
    else .error "Invalid signature - bad data"

end MessageVerifier

/-- The function `secureCompare` accepts equal strings. -/
theorem secureCompare_self (a : List Nat) : MessageVerifier.secureCompare a a = true := by
  have hfold : ∀ l : List Nat, (∀ x ∈ l, x = 0) →
      l.foldl (fun r x => r ||| x) 0 = 0 := by
    intro l
    induction l with
    | nil => intro _; rfl
    | cons x xs ih =>
      intro h
      have hx : x = 0 := h x (by simp)
      simp only [List.foldl_cons, hx]
      exact ih (fun y hy => h y (by simp [hy]))
  unfold MessageVerifier.secureCompare
  rw [if_pos rfl]
  simp only [decide_eq_true_eq]
  apply hfold
  intro x hx
  unfold zipXor at hx
  induction a with
  | nil => simp at hx
  | cons y ys ih =>
    simp only [List.zipWith_cons_cons] at hx
    rcases List.mem_cons.mp hx with h | h
    · simpa [Nat.xor_self] using h
    · exact ih h

/-- The test struct of the repository verifier tests (`Baz` is nil and
tagged `omitempty`, so `encoding/json` omits it). -/
structure TestStruct where
  Foo : List Nat
  Bar : Nat

/-- The `encoding/json` serialization of a `TestStruct` whose `Foo` needs no
escaping and whose `Baz` is omitted: the modelled output of
`JsonMsgSerializer.Serialize`. -/
def jsonSerializeTestStruct (t : TestStruct) : List Nat :=
  [123, 34, 70, 111, 111, 34, 58, 34] ++ t.Foo ++ [34, 44, 34, 66, 97, 114, 34, 58] ++
    natDecimal t.Bar ++ [125]

/-- The 18-byte test secret used by the verifier known-answer tests. -/
def heySecret : List Nat :=
  [72, 101, 121, 44, 32, 73, 39, 109, 32, 97, 32, 115, 101, 99, 114, 101, 116, 33]

/-- The data segment `"eyJGb28iOiJmb28iLCJCYXIiOjQyfQ=="`. -/
def vectorDataSegment : List Nat :=
  [101, 121, 74, 71, 98, 50, 56, 105, 79, 105, 74, 109, 98, 50, 56, 105, 76, 67,
   74, 67, 89, 88, 73, 105, 79, 106, 81, 121, 102, 81, 61, 61]

/-- The expected digest `"b1bdb9d2b372f19dcca800e5989ee7502f1b72a5"`. -/
def vectorDigest : List Nat :=
  [98, 49, 98, 100, 98, 57, 100, 50, 98, 51, 55, 50, 102, 49, 57, 100, 99, 99,
   97, 56, 48, 48, 101, 53, 57, 56, 57, 101, 101, 55, 53, 48, 50, 102, 49, 98,
   55, 50, 97, 53]

/-- Claim C3: The known-answer vector: with the test secret `heySecret`,
SHA-1 (HMAC block size 64) and the JSON serializer, `DigestFor` of the data
segment `"eyJGb28iOiJmb28iLCJCYXIiOjQyfQ=="` is
`"b1bdb9d2b372f19dcca800e5989ee7502f1b72a5"`, and `Generate` on the struct
`{Foo: "foo", Bar: 42}` is the full two-segment token. -/
theorem C3_known_vector :
    MessageVerifier.DigestFor sha1 64 heySecret vectorDataSegment = vectorDigest ∧
    MessageVerifier.Generate sha1 64 heySecret jsonSerializeTestStruct
        ⟨[102, 111, 111], 42⟩ =
      vectorDataSegment ++ dd ++ vectorDigest := by
  constructor
  · decide
  · decide

/-! ## CBC mode (Go `crypto/cipher` `NewCBCEncrypter`/`NewCBCDecrypter`)

The AES block cipher itself (`aes.NewCipher(k)`) is external; it enters as a
function `List Nat → List Nat` on 16-byte blocks.  `CryptBlocks` walks the
buffer block by block; here the buffer is chunked first (fuel-based so the
kernel can evaluate), and the chain is the standard CBC recurrence. -/

/-- Chunk a buffer into 16-byte blocks (fuel ≥ the number of blocks; callers
pass the buffer length). -/
def chunk16 : Nat → List Nat → List (List Nat)
  | 0, _ => []
  | _ + 1, [] => []
  | fuel + 1, x :: rest =>
      (x :: rest).take 16 :: chunk16 fuel ((x :: rest).drop 16)

/-- The CBC encryption chain over blocks. -/
def cbcEncBlocks (E : List Nat → List Nat) : List Nat → List (List Nat) → List (List Nat)
  | _, [] => []
  | prev, blk :: blks =>
      let c := E (zipXor blk prev)
      c :: cbcEncBlocks E c blks

/-- The CBC decryption chain over blocks. -/
def cbcDecBlocks (D : List Nat → List Nat) : List Nat → List (List Nat) → List (List Nat)
  | _, [] => []
  | prev, cblk :: cblks => zipXor (D cblk) prev :: cbcDecBlocks D cblk cblks

/-- The function `NewCBCEncrypter(block, iv).CryptBlocks` over a whole buffer whose length
is a multiple of the block size. -/
def cbcEncrypt (E : List Nat → List Nat) (iv plaintext : List Nat) : List Nat :=
  (cbcEncBlocks E iv (chunk16 plaintext.length plaintext)).flatten

/-- The function `NewCBCDecrypter(block, iv).CryptBlocks` over a whole buffer. -/
def cbcDecrypt (D : List Nat → List Nat) (iv ciphertext : List Nat) : List Nat :=
  (cbcDecBlocks D iv (chunk16 ciphertext.length ciphertext)).flatten

/-! ### CBC lemmas -/

theorem zipXor_cancel (a b : List Nat) (h : a.length = b.length) :
    zipXor (zipXor a b) b = a := by
  induction a generalizing b with
  | nil => simp [zipXor]
  | cons x xs ih =>
    cases b with
    | nil => simp at h
    | cons y ys =>
      simp only [zipXor, List.zipWith_cons_cons]
      rw [Nat.xor_assoc, Nat.xor_self, Nat.xor_zero]
      congr 1
      exact ih ys (by simp only [List.length_cons] at h; omega)

theorem zipXor_length (a b : List Nat) : (zipXor a b).length = min a.length b.length := by
  simp [zipXor]

/-- Chunking the concatenation of 16-byte blocks recovers the blocks. -/
theorem chunk16_flatten (bs : List (List Nat)) (fuel : Nat) (hf : bs.length ≤ fuel)
    (hlen : ∀ b ∈ bs, b.length = 16) : chunk16 fuel bs.flatten = bs := by
  induction bs generalizing fuel with
  | nil =>
    cases fuel with
    | zero => rfl
    | succ n => rfl
  | cons b rest ih =>
    obtain ⟨f, rfl⟩ : ∃ f, fuel = f + 1 := ⟨fuel - 1, by simp at hf; omega⟩
    have hb : b.length = 16 := hlen b (by simp)
    obtain ⟨x, xs, rfl⟩ : ∃ x xs, b = x :: xs := by
      cases b with
      | nil => simp at hb
      | cons x xs => exact ⟨x, xs, rfl⟩
    rw [List.flatten_cons, List.cons_append, chunk16]
    rw [show x :: (xs ++ rest.flatten) = (x :: xs) ++ rest.flatten from rfl]
    rw [List.take_append_of_le_length (by omega), List.drop_append_of_le_length (by omega)]
    rw [List.take_of_length_le (by omega), List.drop_eq_nil_of_le (by omega),
      List.nil_append]
    rw [ih f (by simp at hf ⊢; omega) (fun c hc => hlen c (by simp [hc]))]

/-- XOR of two bytes is a byte. -/
theorem zipXor_isBytes (a b : List Nat) (ha : isBytes a = true) (hb : isBytes b = true) :
    isBytes (zipXor a b) = true := by
  induction a generalizing b with
  | nil => simp [zipXor, isBytes]
  | cons x xs ih =>
    cases b with
    | nil => simp [zipXor, isBytes]
    | cons y ys =>
      simp only [isBytes, List.all_cons, Bool.and_eq_true, decide_eq_true_eq] at ha hb
      simp only [zipXor, List.zipWith_cons_cons, isBytes, List.all_cons,
        Bool.and_eq_true, decide_eq_true_eq]
      refine ⟨Nat.xor_lt_two_pow (n := 8) ha.1 hb.1, ?_⟩
      have := ih ys (by simp [isBytes, ha.2]) (by simp [isBytes, hb.2])
      simpa [zipXor, isBytes] using this

/-- Every CBC ciphertext block has the block length, when the cipher
preserves it on blocks. -/
theorem cbcEncBlocks_length (E : List Nat → List Nat)
    (hE : ∀ b, b.length = 16 → (E b).length = 16) :
    ∀ (bs : List (List Nat)) (prev : List Nat), prev.length = 16 →
      (∀ b ∈ bs, b.length = 16) →
      ∀ c ∈ cbcEncBlocks E prev bs, c.length = 16 := by
  intro bs
  induction bs with
  | nil => intro prev _ _ c hc; simp [cbcEncBlocks] at hc
  | cons b rest ih =>
    intro prev hprev hbs c hc
    have hb : b.length = 16 := hbs b (by simp)
    have hxlen : (zipXor b prev).length = 16 := by
      rw [zipXor_length]
      omega
    simp only [cbcEncBlocks, List.mem_cons] at hc
    rcases hc with rfl | hc
    · exact hE _ hxlen
    · exact ih _ (hE _ hxlen) (fun x hx => hbs x (by simp [hx])) c hc

/-- Every CBC ciphertext byte is a byte, when the cipher maps byte blocks to
byte blocks. -/
theorem cbcEncBlocks_isBytes (E : List Nat → List Nat)
    (hElen : ∀ b, b.length = 16 → (E b).length = 16)
    (hE : ∀ b, b.length = 16 → isBytes b = true → isBytes (E b) = true) :
    ∀ (bs : List (List Nat)) (prev : List Nat), prev.length = 16 →
      isBytes prev = true →
      (∀ b ∈ bs, b.length = 16) → (∀ b ∈ bs, isBytes b = true) →
      isBytes (cbcEncBlocks E prev bs).flatten = true := by
  intro bs
  induction bs with
  | nil => intro prev _ _ _ _; rfl
  | cons b rest ih =>
    intro prev hprev hprevB hbs hbsB
    have hb : b.length = 16 := hbs b (by simp)
    have hxlen : (zipXor b prev).length = 16 := by
      rw [zipXor_length]
      omega
    have hxB : isBytes (zipXor b prev) = true :=
      zipXor_isBytes _ _ (hbsB b (by simp)) hprevB
    simp only [cbcEncBlocks, List.flatten_cons, isBytes, List.all_append]
    have h1 := hE _ hxlen hxB
    have h2 := ih (E (zipXor b prev)) (hElen _ hxlen) h1
      (fun x hx => hbs x (by simp [hx])) (fun x hx => hbsB x (by simp [hx]))
    simp only [isBytes] at h1 h2
    rw [h1, h2]
    rfl

/-- The number of CBC ciphertext blocks equals the number of plaintext
blocks. -/
theorem cbcEncBlocks_count (E : List Nat → List Nat) :
    ∀ (bs : List (List Nat)) (prev : List Nat),
      (cbcEncBlocks E prev bs).length = bs.length := by
  intro bs
  induction bs with
  | nil => intro prev; rfl
  | cons b rest ih => intro prev; simp [cbcEncBlocks, ih]

/-- CBC decryption inverts CBC encryption, block-wise. -/
theorem cbcDecBlocks_cbcEncBlocks (E D : List Nat → List Nat)
    (hD : ∀ b, b.length = 16 → D (E b) = b)
    (hE : ∀ b, b.length = 16 → (E b).length = 16) :
    ∀ (bs : List (List Nat)) (prev : List Nat), prev.length = 16 →
      (∀ b ∈ bs, b.length = 16) →
      cbcDecBlocks D prev (cbcEncBlocks E prev bs) = bs := by
  intro bs
  induction bs with
  | nil => intro prev _ _; rfl
  | cons b rest ih =>
    intro prev hprev hbs
    have hb : b.length = 16 := hbs b (by simp)
    have hxlen : (zipXor b prev).length = 16 := by
      rw [zipXor_length]
      omega
    simp only [cbcEncBlocks, cbcDecBlocks]
    rw [hD _ hxlen, zipXor_cancel b prev (by omega)]
    rw [ih (E (zipXor b prev)) (hE _ hxlen) (fun c hc => hbs c (by simp [hc]))]

/-- Every block of an aligned buffer has the block length. -/
theorem chunk16_aligned_length :
    ∀ (fuel : Nat) (p : List Nat), p.length ≤ fuel → p.length % 16 = 0 →
      ∀ b ∈ chunk16 fuel p, b.length = 16 := by
  intro fuel
  induction fuel with
  | zero => intro p _ _ b hb; simp [chunk16] at hb
  | succ f ih =>
    intro p hf hp b hb
    cases p with
    | nil => simp [chunk16] at hb
    | cons x rest =>
      rw [chunk16] at hb
      have hlen : (x :: rest).length % 16 = 0 := hp
      have hge : 16 ≤ (x :: rest).length := by
        have : (x :: rest).length ≠ 0 := by simp
        omega
      rcases List.mem_cons.mp hb with rfl | hb
      · rw [List.length_take]
        simp only [List.length_cons] at hge ⊢
        omega
      · refine ih _ ?_ ?_ b hb
        · rw [List.length_drop]
          simp only [List.length_cons] at hf ⊢
          omega
        · rw [List.length_drop]
          omega

/-- Rebuilding an aligned buffer from its chunks. -/
theorem chunk16_flatten_self :
    ∀ (fuel : Nat) (p : List Nat), p.length ≤ fuel →
      (chunk16 fuel p).flatten = p := by
  intro fuel
  induction fuel with
  | zero =>
    intro p hf
    have : p = [] := List.eq_nil_of_length_eq_zero (by omega)
    simp [this, chunk16]
  | succ f ih =>
    intro p hf
    cases p with
    | nil => rfl
    | cons x rest =>
      rw [chunk16, List.flatten_cons]
      rw [ih _ (by rw [List.length_drop]; simp only [List.length_cons] at hf ⊢; omega)]
      exact List.take_append_drop 16 (x :: rest)

/-- Flattening 16-byte blocks multiplies the count by 16. -/
theorem flatten_length_16 :
    ∀ cs : List (List Nat), (∀ c ∈ cs, c.length = 16) →
      cs.flatten.length = 16 * cs.length := by
  intro cs
  induction cs with
  | nil => intro _; rfl
  | cons c rest ih =>
    intro h
    simp only [List.flatten_cons, List.length_append, List.length_cons]
    rw [h c (by simp), ih (fun x hx => h x (by simp [hx]))]
    ring

/-- The number of chunks of an aligned buffer. -/
theorem chunk16_count :
    ∀ (fuel : Nat) (p : List Nat), p.length ≤ fuel → p.length % 16 = 0 →
      (chunk16 fuel p).length = p.length / 16 := by
  intro fuel
  induction fuel with
  | zero =>
    intro p hf _
    have : p = [] := List.eq_nil_of_length_eq_zero (by omega)
    simp [this, chunk16]
  | succ f ih =>
    intro p hf hp
    cases p with
    | nil => simp [chunk16]
    | cons x rest =>
      have hge : 16 ≤ (x :: rest).length := by
        have : (x :: rest).length ≠ 0 := by simp
        omega
      rw [chunk16, List.length_cons]
      rw [ih _ (by rw [List.length_drop]; simp only [List.length_cons] at hf ⊢; omega)
        (by rw [List.length_drop]; omega)]
      rw [List.length_drop]
      simp only [List.length_cons] at hge hp ⊢
      omega

/-- The CBC ciphertext of an aligned buffer has the length of the buffer. -/
theorem cbcEncrypt_length (E : List Nat → List Nat)
    (hE : ∀ b, b.length = 16 → (E b).length = 16)
    (iv p : List Nat) (hiv : iv.length = 16) (hp : p.length % 16 = 0) :
    (cbcEncrypt E iv p).length = p.length := by
  unfold cbcEncrypt
  have hchunks : ∀ b ∈ chunk16 p.length p, b.length = 16 :=
    fun b hb => chunk16_aligned_length _ _ le_rfl hp b hb
  have hall : ∀ c ∈ cbcEncBlocks E iv (chunk16 p.length p), c.length = 16 :=
    cbcEncBlocks_length E hE _ _ hiv hchunks
  rw [flatten_length_16 _ hall, cbcEncBlocks_count,
    chunk16_count _ _ le_rfl hp]
  omega

/-- CBC decryption inverts CBC encryption on aligned buffers. -/
theorem cbcDecrypt_cbcEncrypt (E D : List Nat → List Nat)
    (hD : ∀ b, b.length = 16 → D (E b) = b)
    (hE : ∀ b, b.length = 16 → (E b).length = 16)
    (iv p : List Nat) (hiv : iv.length = 16) (hp : p.length % 16 = 0) :
    cbcDecrypt D iv (cbcEncrypt E iv p) = p := by
  unfold cbcDecrypt cbcEncrypt
  have hchunks : ∀ b ∈ chunk16 p.length p, b.length = 16 :=
    fun b hb => chunk16_aligned_length _ _ le_rfl hp b hb
  have hct : ∀ c ∈ cbcEncBlocks E iv (chunk16 p.length p), c.length = 16 :=
    cbcEncBlocks_length E hE _ _ hiv hchunks
  rw [chunk16_flatten _ _ ?hf hct]
  · rw [cbcDecBlocks_cbcEncBlocks E D hD hE _ _ hiv hchunks]
    exact chunk16_flatten_self _ _ le_rfl
  case hf =>
    rw [flatten_length_16 _ hct, cbcEncBlocks_count]
    omega

/-! ## MessageEncryptor (`message_encryptor.go`, `aes_cbc`/`aes_gcm` codecs)

The block cipher enter as `E D : key → block → block` and the AEAD as
`sealF : key → nonce → plaintext → ciphertext-with-tag` /
`openF : key → nonce → ciphertext-with-tag → Option plaintext` — the Go code
builds these from `aes.NewCipher` / `cipher.NewGCM`, which are standard
library primitives outside this repository.  The serializer in every
embedded configuration is `NullMsgSerializer` (the identity on strings);
`isJson` tells the CBC decryptor whether the configured serializer is the
JSON one (the trailing-`0x10` strip applies only then).  The fresh random
IV / nonce is an explicit argument. -/

/-- Key truncation: `if len(k) > 32 { k = crypt.Key[:32] }`. -/
def truncKey (key : List Nat) : List Nat :=
  if 32 < key.length then key.take 32 else key

/-- The function `aes.NewCipher` accepts 16-, 24- or 32-byte keys. -/
def aesKeySizeOk (k : List Nat) : Bool :=
  k.length == 16 || k.length == 24 || k.length == 32

/-- The function `bytes.TrimRight(s, "\x10")`. -/
def trimRight16 (l : List Nat) : List Nat :=
  (l.reverse.dropWhile (fun b => b == 16)).reverse

/-- The function `aesCbcEncrypt`: truncate the key, build the cipher (key-size check),
serialize, pad, CBC-encrypt under the fresh `iv`, and join the base64
pieces.  The iv-length test models the `NewCBCEncrypter` panic (Go always
passes 16 random bytes here). -/
def aesCbcEncrypt (E : List Nat → List Nat → List Nat) (key iv value : List Nat) :
    Except String (List Nat) :=
  let k := truncKey key
  if aesKeySizeOk k then
    let splaintext := nullSerialize value
    let plaintext := PKCS7Pad splaintext
    if iv.length = 16 then
      .ok (b64Encode (cbcEncrypt (E k) iv plaintext) ++ dd ++ b64Encode iv)
    else .error "panic: cipher.NewCBCEncrypter: IV length must equal block size"
  else .error "crypto/aes: invalid key size"

/-- The function `aesCbcDecrypt`: truncate the key, key-size check, split on `--` into
exactly two segments, base64-decode both, require the ciphertext to be a
nonzero multiple of the block size, CBC-decrypt, unpad, and (JSON serializer
only) strip trailing `0x10` bytes.  The `ok` payload is what the null
serializer stores into the string target of the caller. -/
def aesCbcDecrypt (D : List Nat → List Nat → List Nat) (key : List Nat)
    (isJson : Bool) (encryptedMsg : List Nat) : Except String (List Nat) :=
  let k := truncKey key
  if aesKeySizeOk k then
    let splitMsg := splitDD encryptedMsg
    if splitMsg.length = 2 then
      match b64Decode (splitMsg.getD 0 []), b64Decode (splitMsg.getD 1 []) with
      | some ciphertext, some iv =>
        if ciphertext.length < 16 then .error "bad data, ciphertext too short"
        else if ciphertext.length % 16 ≠ 0 then
          .error "bad data, ciphertext is not a multiple of the block size"
        else if iv.length = 16 then
          match PKCS7Unpad (cbcDecrypt (D k) iv ciphertext) with
          | none => .error "panic: runtime error: index out of range"
          | some unPadded => .ok (if isJson then trimRight16 unPadded else unPadded)
        else .error "panic: cipher.NewCBCDecrypter: IV length must equal block size"
      | _, _ => .error "illegal base64 data"
    else .error "bad data (--)"
  else .error "crypto/aes: invalid key size"

/-- The function `aesGCMEncrypt`: truncate the key, key-size check, serialize, seal under
the fresh 12-byte nonce, split the 16-byte tag off the ciphertext tail, and
join the three base64 pieces. -/
def aesGCMEncrypt (sealF : List Nat → List Nat → List Nat → List Nat)
    (key nonce value : List Nat) : Except String (List Nat) :=
  let k := truncKey key
  if aesKeySizeOk k then
    let splaintext := nullSerialize value
    if nonce.length = 12 then
      let ciphertext := sealF k nonce splaintext
      let tagStart := ciphertext.length - 16
      .ok (b64Encode (ciphertext.take tagStart) ++ dd ++ b64Encode nonce ++ dd ++
        b64Encode (ciphertext.drop tagStart))
    else .error "panic: crypto/cipher: incorrect nonce length given to GCM"
  else .error "crypto/aes: invalid key size"

/-- The function `aesGCMDecrypt`: truncate the key, key-size check, `SplitN` into exactly
three segments, base64-decode each, reassemble `ciphertext ++ tag`, and open;
an authentication failure surfaces as the error of the `cipher` package. -/
def aesGCMDecrypt (openF : List Nat → List Nat → List Nat → Option (List Nat))
    (key encryptedMsg : List Nat) : Except String (List Nat) :=
  let k := truncKey key
  if aesKeySizeOk k then
    let vectors := splitDDN 3 encryptedMsg
    if vectors.length = 3 then
      match b64Decode (vectors.getD 0 []), b64Decode (vectors.getD 1 []),
          b64Decode (vectors.getD 2 []) with
      | some enc, some nonce, some tag =>
        if nonce.length = 12 then
          match openF k nonce (enc ++ tag) with
          | some plain => .ok plain
          | none => .error "cipher: message authentication failed"
        else .error "panic: crypto/cipher: incorrect nonce length given to GCM"
      | _, _, _ => .error "bad base64 encoding"
    else .error "missing vectors, want 3"
  else .error "crypto/aes: invalid key size"

/-- The function `Encrypt`: dispatch on the cipher name; `aes-cbc` and the unset name use
the CBC codec, an unrecognized name is an error.

Modelled from the spec: the `"aes-256-gcm"` dispatch case — the snapshot copy
of `message_encryptor.go` predates the AEAD codec that ships next to it
(`aes_gcm.go` is present but uncalled), and §4.4 of the specification states
that `encrypt`/`decrypt` dispatch on the configured cipher name including the
authenticated-encryption mode. -/
def Encrypt (E : List Nat → List Nat → List Nat)
    (sealF : List Nat → List Nat → List Nat → List Nat)
    (cipher : String) (key rnd value : List Nat) : Except String (List Nat) :=
  if cipher = "aes-cbc" then aesCbcEncrypt E key rnd value
  else if cipher = "aes-256-gcm" then aesGCMEncrypt sealF key rnd value
  else if cipher = "" then aesCbcEncrypt E key rnd value
  else .error "cipher not set or not supported"

/-- The function `Decrypt`: the mirror dispatch (the `"aes-256-gcm"` case again modelled
from the spec, as in `Encrypt`). -/
def Decrypt (D : List Nat → List Nat → List Nat)
    (openF : List Nat → List Nat → List Nat → Option (List Nat))
    (cipher : String) (key : List Nat) (isJson : Bool) (value : List Nat) :
    Except String (List Nat) :=
  if cipher = "aes-cbc" then aesCbcDecrypt D key isJson value
  else if cipher = "aes-256-gcm" then aesGCMDecrypt openF key value
  else if cipher = "" then aesCbcDecrypt D key isJson value
  else .error "cipher not set or not supported"

/-- The function `EncryptAndSign`: in the authenticated-encryption mode, delegate directly
to `Encrypt` (modelled from the spec, §4.4: that mode is self-authenticating
and is never wrapped); otherwise require a verifier — the embedded
configuration carries the verifier hash (`hashV`, `bsV`) and signing key
explicitly, covering both the default SHA-1 verifier the Go code builds from
`SignKey` and an explicitly configured one — encrypt, then wrap the inner
token with `Verifier.Generate` (null serializer, so the inner token string
is signed verbatim after base64-encoding). -/
def EncryptAndSign (E : List Nat → List Nat → List Nat)
    (sealF : List Nat → List Nat → List Nat → List Nat)
    (hashV : List Nat → List Nat) (bsV : Nat)
    (cipher : String) (key signKey rnd value : List Nat) : Except String (List Nat) :=
  if cipher = "aes-256-gcm" then Encrypt E sealF cipher key rnd value
  else if signKey = [] then .error "Verifier and/or signature key not set: "
  else
    match Encrypt E sealF cipher key rnd value with
    | .error e => .error e
    | .ok encryptedMsg =>
      .ok (MessageVerifier.Generate hashV bsV signKey nullSerialize encryptedMsg)

/-- The function `DecryptAndVerify`: in the authenticated-encryption mode, decrypt
directly (modelled from the spec, §4.4); otherwise verify the outer
signature — recovering the inner token from the base64 data segment — and
decrypt it. -/
def DecryptAndVerify (D : List Nat → List Nat → List Nat)
    (openF : List Nat → List Nat → List Nat → Option (List Nat))
    (hashV : List Nat → List Nat) (bsV : Nat)
    (cipher : String) (key signKey : List Nat) (isJson : Bool) (msg : List Nat) :
    Except String (List Nat) :=
  if cipher = "aes-256-gcm" then aesGCMDecrypt openF key msg
  else
    match MessageVerifier.Verify hashV bsV signKey msg with
    | .error e => .error ("Verification failed: " ++ e)
    | .ok base64Msg => Decrypt D openF cipher key isJson base64Msg

/-! ## KeyGenerator (`key_generator.go`) -/

/-- The structure `KeyGenerator`: a PBKDF2 wrapper with a write-through cache (the Go
`map[string][]byte` is modelled as an association list; insertion at the
head, lookup first match). -/
structure KeyGenerator where
  Secret : List Nat
  Iterations : Nat
  cache : List (List Nat × List Nat)

/-- Go map lookup: `g.cache[key]`, `none` for a missing key (Go `nil`). -/
def mapLookup (k : List Nat) : List (List Nat × List Nat) → Option (List Nat)
  | [] => none
  | (k2, v) :: rest => if k2 = k then some v else mapLookup k rest

namespace KeyGenerator

/-- The function `Generate`: PBKDF2 with SHA-1 over the secret and salt; a zero iteration
count is replaced (by mutation, hence the returned generator) with the Rails
default 1000. -/
def Generate (g : KeyGenerator) (salt : List Nat) (keySize : Nat) :
    List Nat × KeyGenerator :=
  let iters := if g.Iterations = 0 then 1000 else g.Iterations
  (pbkdf2Key g.Secret salt iters keySize, { g with Iterations := iters })

/-- The cache key: `fmt.Sprintf("%s%d", salt, keySize)` — the salt bytes
followed by the decimal key size, with no separator. -/
def cacheKey (salt : List Nat) (keySize : Nat) : List Nat :=
  salt ++ natDecimal keySize

/-- The function `CacheGenerate`: write-through cache keyed by `cacheKey`. -/
def CacheGenerate (g : KeyGenerator) (salt : List Nat) (keySize : Nat) :
    List Nat × KeyGenerator :=
  match mapLookup (cacheKey salt keySize) g.cache with
  | some v => (v, g)
  | none =>
    let r := Generate g salt keySize
    (r.1, { r.2 with cache := (cacheKey salt keySize, r.1) :: r.2.cache })

end KeyGenerator

/-! ## Claim C7 — key-derivation cache -/

/-- A fresh generator with secret `"s"` and one iteration (overriding the
1000-iteration default only to keep the kernel computation small; the cache
logic is iteration-independent). -/
def kgC7 : KeyGenerator := ⟨[115], 1, []⟩

/-- Claim C7, counterexample: The cache key is the *string concatenation* of
the salt and the decimal key size, so the distinct pairs `("a1", 1)` and
`("a", 11)` collide on the key `"a11"`: after deriving for the first pair,
`CacheGenerate` for the second pair returns the 1-byte key of the first pair
(and adds no cache entry) instead of the 11-byte key `Generate` derives. -/
theorem C7_cache_counterexample :
    (KeyGenerator.CacheGenerate
        (KeyGenerator.CacheGenerate kgC7 [97, 49] 1).2 [97] 11).1 =
      (KeyGenerator.CacheGenerate kgC7 [97, 49] 1).1 ∧
    (KeyGenerator.CacheGenerate
        (KeyGenerator.CacheGenerate kgC7 [97, 49] 1).2 [97] 11).2.cache =
      (KeyGenerator.CacheGenerate kgC7 [97, 49] 1).2.cache ∧
    (KeyGenerator.CacheGenerate
        (KeyGenerator.CacheGenerate kgC7 [97, 49] 1).2 [97] 11).1 ≠
      (KeyGenerator.Generate (KeyGenerator.CacheGenerate kgC7 [97, 49] 1).2 [97] 11).1 := by
  refine ⟨by decide, by decide, by decide⟩

/-- Claim C7, amended: `CacheGenerate` memoizes keyed by the concatenated
string `salt ++ decimal(keySize)`: on a fresh (empty) cache it returns
exactly the bytes `Generate` derives, and a repeated call with the same pair returns
the stored value; but distinct pairs are distinct cache entries only when
their concatenations differ (the collision in the counterexample is forced by
the separator-free key). -/
theorem C7_cache_amended (g : KeyGenerator) (salt : List Nat) (ks : Nat) :
    (g.cache = [] →
      (KeyGenerator.CacheGenerate g salt ks).1 = (KeyGenerator.Generate g salt ks).1) ∧
    (KeyGenerator.CacheGenerate (KeyGenerator.CacheGenerate g salt ks).2 salt ks).1 =
      (KeyGenerator.CacheGenerate g salt ks).1 := by
  constructor
  · intro h
    simp only [KeyGenerator.CacheGenerate, h, mapLookup]
  · cases hl : mapLookup (KeyGenerator.cacheKey salt ks) g.cache with
    | some v => simp only [KeyGenerator.CacheGenerate, hl]
    | none =>
      simp only [KeyGenerator.CacheGenerate, hl, mapLookup, if_pos]

/-- Claim C7, amended, witness. -/
theorem C7_cache_witness :
    (KeyGenerator.CacheGenerate kgC7 [97] 1).1 = (KeyGenerator.Generate kgC7 [97] 1).1 ∧
    (KeyGenerator.CacheGenerate (KeyGenerator.CacheGenerate kgC7 [97] 1).2 [97] 1).1 =
      (KeyGenerator.CacheGenerate kgC7 [97] 1).1 :=
  ⟨(C7_cache_amended kgC7 [97] 1).1 rfl, (C7_cache_amended kgC7 [97] 1).2⟩

/-! ## Claim C9 — Verify error classification -/

/-- A configured digest contains no dash. -/
theorem digestFor_no_dash (hash : List Nat → List Nat) (bs : Nat)
    (secret data : List Nat) (h : secret ≠ []) :
    45 ∉ MessageVerifier.DigestFor hash bs secret data := by
  unfold MessageVerifier.DigestFor
  rw [if_neg h]
  exact hexEncode_no_dash _

/-- The function `Verify` accepts a token whose digest matches, returning the (loosely)
base64-decoded data segment — the shared content of the verification
success path. -/
theorem Verify_ok_of_match (hash : List Nat → List Nat) (bs : Nat)
    (secret data : List Nat) (hsec : secret ≠ []) (hnd : 45 ∉ data) :
    MessageVerifier.Verify hash bs secret
        (data ++ dd ++ MessageVerifier.DigestFor hash bs secret data) =
      .ok (b64DecodeLoose data) := by
  have hsplit : splitDD (data ++ dd ++ MessageVerifier.DigestFor hash bs secret data) =
      [data, MessageVerifier.DigestFor hash bs secret data] :=
    splitDD_two _ _ hnd (digestFor_no_dash hash bs secret data hsec)
  have hne : data ++ dd ++ MessageVerifier.DigestFor hash bs secret data ≠ [] := by
    intro hc
    have := congrArg List.length hc
    simp [dd] at this
  unfold MessageVerifier.Verify
  rw [if_neg hsec, if_neg hne, hsplit]
  rw [if_pos (show ([data, MessageVerifier.DigestFor hash bs secret data]).length = 2
    from rfl)]
  rw [show ([data, MessageVerifier.DigestFor hash bs secret data].getD 1 []) =
    MessageVerifier.DigestFor hash bs secret data from rfl]
  rw [show ([data, MessageVerifier.DigestFor hash bs secret data].getD 0 []) = data
    from rfl]
  rw [if_pos (secureCompare_self _)]

-- Equality of `Except` results is decidable (needed to evaluate concrete
-- verification outcomes).
deriving instance DecidableEq for Except

/-- Claim C9, counterexample: A token with three segments (a format violation)
and a token with a mismatched digest (an authentication failure) produce the
*same* error value, `Invalid signature - bad data`: the code does not
classify format violations distinctly from authentication failures. -/
theorem C9_error_counterexample :
    MessageVerifier.Verify sha1 64 heySecret [97, 45, 45, 98, 45, 45, 99] =
      .error "Invalid signature - bad data" ∧
    MessageVerifier.Verify sha1 64 heySecret
        (vectorDataSegment ++ dd ++ [98, 97, 100]) =
      .error "Invalid signature - bad data" := by
  refine ⟨by decide, by decide⟩

/-- Claim C9, amended: The old verifier distinguishes only the empty token
(`empty message`); a wrong segment count yields the *same* `bad data` error
as a digest mismatch; and an invalid-base64 data segment is not detected at
all — the decode error is discarded, so a token whose digest matches
verifies successfully, its target set to whatever prefix decoded. -/
theorem C9_error_amended (hash : List Nat → List Nat) (bs : Nat) (secret : List Nat)
    (hsec : secret ≠ []) :
    MessageVerifier.Verify hash bs secret [] =
      .error "Invalid signature - empty message" ∧
    (∀ msg, msg ≠ [] → (splitDD msg).length ≠ 2 →
      MessageVerifier.Verify hash bs secret msg =
        .error "Invalid signature - bad data") ∧
    (∀ data, 45 ∉ data →
      MessageVerifier.Verify hash bs secret
          (data ++ dd ++ MessageVerifier.DigestFor hash bs secret data) =
        .ok (b64DecodeLoose data)) := by
  refine ⟨?_, ?_, ?_⟩
  · unfold MessageVerifier.Verify
    rw [if_neg hsec, if_pos rfl]
  · intro msg hm h2
    unfold MessageVerifier.Verify
    rw [if_neg hsec, if_neg hm, if_neg h2]
  · intro data hnd
    exact Verify_ok_of_match hash bs secret data hsec hnd

/-- Claim C9, amended, witness. -/
theorem C9_error_witness :
    MessageVerifier.Verify sha1 64 [107] [] =
      .error "Invalid signature - empty message" ∧
    MessageVerifier.Verify sha1 64 [107] [97, 45, 45, 98, 45, 45, 99] =
      .error "Invalid signature - bad data" ∧
    MessageVerifier.Verify sha1 64 [107]
        ([97] ++ dd ++ MessageVerifier.DigestFor sha1 64 [107] [97]) =
      .ok (b64DecodeLoose [97]) :=
  ⟨(C9_error_amended sha1 64 [107] (by decide)).1,
   (C9_error_amended sha1 64 [107] (by decide)).2.1 _ (by decide) (by decide),
   (C9_error_amended sha1 64 [107] (by decide)).2.2 [97] (by decide)⟩

/-! ## Claim C2 — authenticated-encryption delegation and token shape -/

/-- Claim C2: With the `"aes-256-gcm"` cipher selected, `EncryptAndSign`
delegates directly to `Encrypt` (no verifier wrap), and the token is exactly
the three base64 segments `ciphertext -- nonce -- tag` — in particular any
produced token splits into exactly three segments on `--`.  (The GCM dispatch
branch is modelled from the spec; see `Encrypt`.) -/
theorem C2_gcm_delegation
    (E : List Nat → List Nat → List Nat)
    (sealF : List Nat → List Nat → List Nat → List Nat)
    (hashV : List Nat → List Nat) (bsV : Nat)
    (key signKey nonce value : List Nat)
    (hkey : aesKeySizeOk (truncKey key) = true) (hnonce : nonce.length = 12) :
    EncryptAndSign E sealF hashV bsV "aes-256-gcm" key signKey nonce value =
      Encrypt E sealF "aes-256-gcm" key nonce value ∧
    EncryptAndSign E sealF hashV bsV "aes-256-gcm" key signKey nonce value =
      .ok (b64Encode ((sealF (truncKey key) nonce value).take
            ((sealF (truncKey key) nonce value).length - 16)) ++ dd ++
          b64Encode nonce ++ dd ++
          b64Encode ((sealF (truncKey key) nonce value).drop
            ((sealF (truncKey key) nonce value).length - 16))) ∧
    (∀ t, EncryptAndSign E sealF hashV bsV "aes-256-gcm" key signKey nonce value =
        .ok t → (splitDD t).length = 3) := by
  have h1 : EncryptAndSign E sealF hashV bsV "aes-256-gcm" key signKey nonce value =
      Encrypt E sealF "aes-256-gcm" key nonce value := by
    unfold EncryptAndSign
    rw [if_pos rfl]
  have h2 : Encrypt E sealF "aes-256-gcm" key nonce value =
      .ok (b64Encode ((sealF (truncKey key) nonce value).take
            ((sealF (truncKey key) nonce value).length - 16)) ++ dd ++
          b64Encode nonce ++ dd ++
          b64Encode ((sealF (truncKey key) nonce value).drop
            ((sealF (truncKey key) nonce value).length - 16))) := by
    unfold Encrypt
    rw [if_neg (by decide), if_pos rfl]
    unfold aesGCMEncrypt
    simp only
    rw [if_pos hkey, if_pos hnonce]
    rfl
  refine ⟨h1, h1.trans h2, ?_⟩
  intro t ht
  rw [h1, h2] at ht
  have ht2 := Except.ok.inj ht
  subst ht2
  rw [splitDD_three _ _ _ (b64Encode_no_dash _) (b64Encode_no_dash _)
    (b64Encode_no_dash _)]
  rfl

/-- Claim C2, witness. -/
theorem C2_gcm_witness :
    EncryptAndSign (fun _ b => b) (fun _ _ p => p ++ List.replicate 16 0) sha1 64
        "aes-256-gcm" (List.replicate 32 0) [1] (List.replicate 12 0) [97] =
      Encrypt (fun _ b => b) (fun _ _ p => p ++ List.replicate 16 0)
        "aes-256-gcm" (List.replicate 32 0) (List.replicate 12 0) [97] ∧
    (splitDD ((EncryptAndSign (fun _ b => b) (fun _ _ p => p ++ List.replicate 16 0)
        sha1 64 "aes-256-gcm" (List.replicate 32 0) [1] (List.replicate 12 0)
        [97]).toOption.getD [])).length = 3 := by
  have h := C2_gcm_delegation (fun _ b => b) (fun _ _ p => p ++ List.replicate 16 0)
    sha1 64 (List.replicate 32 0) [1] (List.replicate 12 0) [97]
    (by decide) (by decide)
  refine ⟨h.1, ?_⟩
  rw [h.2.1]
  exact h.2.2 _ h.2.1

/-! ## Claim C8 — key truncation -/

/-- Claim C8: For both codecs, a key longer than 32 bytes is used only through
its first 32 bytes: encryption under `key` and under `key.take 32`, with the
same IV/nonce and plaintext, produces identical results. -/
theorem C8_key_truncation
    (E : List Nat → List Nat → List Nat)
    (sealF : List Nat → List Nat → List Nat → List Nat)
    (key iv nonce value : List Nat) (h : 32 < key.length) :
    aesCbcEncrypt E key iv value = aesCbcEncrypt E (key.take 32) iv value ∧
    aesGCMEncrypt sealF key nonce value =
      aesGCMEncrypt sealF (key.take 32) nonce value := by
  have h32 : (key.take 32).length = 32 := by rw [List.length_take]; omega
  have htr : truncKey key = key.take 32 := by unfold truncKey; rw [if_pos h]
  have htr2 : truncKey (key.take 32) = key.take 32 := by
    unfold truncKey
    rw [if_neg (by omega)]
  constructor
  · unfold aesCbcEncrypt
    rw [htr, htr2]
  · unfold aesGCMEncrypt
    rw [htr, htr2]

/-- Claim C8, witness. -/
theorem C8_key_witness :
    32 < (List.replicate 64 7 : List Nat).length ∧
    aesCbcEncrypt (fun _ b => b) (List.replicate 64 7) (List.replicate 16 0) [97] =
      aesCbcEncrypt (fun _ b => b) ((List.replicate 64 7 : List Nat).take 32)
        (List.replicate 16 0) [97] ∧
    aesGCMEncrypt (fun _ _ p => p) (List.replicate 64 7) (List.replicate 12 0) [97] =
      aesGCMEncrypt (fun _ _ p => p) ((List.replicate 64 7 : List Nat).take 32)
        (List.replicate 12 0) [97] :=
  ⟨by decide,
   (C8_key_truncation (fun _ b => b) (fun _ _ p => p) (List.replicate 64 7)
     (List.replicate 16 0) (List.replicate 12 0) [97] (by decide)).1,
   (C8_key_truncation (fun _ b => b) (fun _ _ p => p) (List.replicate 64 7)
     (List.replicate 16 0) (List.replicate 12 0) [97] (by decide)).2⟩

/-! ## Claim C1 — pipeline round trip -/

/-- Each chunk is part of the original buffer. -/
theorem chunk16_subset :
    ∀ (fuel : Nat) (p b : List Nat), b ∈ chunk16 fuel p → b ⊆ p := by
  intro fuel
  induction fuel with
  | zero => intro p b hb; simp [chunk16] at hb
  | succ f ih =>
    intro p b hb
    cases p with
    | nil => simp [chunk16] at hb
    | cons x rest =>
      rw [chunk16] at hb
      rcases List.mem_cons.mp hb with rfl | hb
      · exact List.take_subset _ _
      · exact (ih _ b hb).trans (List.drop_subset _ _)

/-- Claim C1, amended: The composed pipeline round-trips — both the
`Decrypt (Encrypt v)` half and the `DecryptAndVerify (EncryptAndSign v)`
half — under a valid configuration (block cipher and AEAD supplied with
their contracts, any verifier hash function, the null serializer),
*provided*, in the block-cipher mode, that the serialized payload either is
not a multiple of 16 bytes long or is nonempty with final byte 0 or at least
16.  Block-aligned payloads with final byte in `[1, 15]` are silently
corrupted by the broken padding codec (see the counterexample), and the
empty payload fails with the `ciphertext too short` error; the
authenticated-encryption mode round-trips without any proviso.  (The
`aes-256-gcm` dispatch is modelled from the spec; see `Encrypt`.) -/
theorem C1_roundtrip_amended
    (E D : List Nat → List Nat → List Nat)
    (sealF : List Nat → List Nat → List Nat → List Nat)
    (openF : List Nat → List Nat → List Nat → Option (List Nat))
    (hashV : List Nat → List Nat) (bsV : Nat)
    (key signKey iv nonce v : List Nat)
    (hkey : aesKeySizeOk (truncKey key) = true)
    (hsk : signKey ≠ [])
    (hvB : isBytes v = true) :
    ((∀ b, b.length = 16 → D (truncKey key) (E (truncKey key) b) = b) →
     (∀ b, b.length = 16 → (E (truncKey key) b).length = 16) →
     (∀ b, b.length = 16 → isBytes b = true → isBytes (E (truncKey key) b) = true) →
     iv.length = 16 → isBytes iv = true →
     (v.length % 16 ≠ 0 ∨ (v ≠ [] ∧ (v.getLastD 0 = 0 ∨ 16 ≤ v.getLastD 0))) →
     (∀ t, Encrypt E sealF "aes-cbc" key iv v = .ok t →
        Decrypt D openF "aes-cbc" key false t = .ok v) ∧
     (∀ t, EncryptAndSign E sealF hashV bsV "aes-cbc" key signKey iv v = .ok t →
        DecryptAndVerify D openF hashV bsV "aes-cbc" key signKey false t = .ok v)) ∧
    (openF (truncKey key) nonce (sealF (truncKey key) nonce v) = some v →
     isBytes (sealF (truncKey key) nonce v) = true →
     nonce.length = 12 → isBytes nonce = true →
     (∀ t, Encrypt E sealF "aes-256-gcm" key nonce v = .ok t →
        Decrypt D openF "aes-256-gcm" key false t = .ok v) ∧
     (∀ t, EncryptAndSign E sealF hashV bsV "aes-256-gcm" key signKey nonce v = .ok t →
        DecryptAndVerify D openF hashV bsV "aes-256-gcm" key signKey false t = .ok v)) := by
  constructor
  · -- block-cipher (CBC) mode
    intro hD hElen hEB hiv hivB hv
    have hvne : v ≠ [] := by
      rcases hv with h | ⟨h1, _⟩
      · intro hc
        rw [hc] at h
        simp at h
      · exact h1
    have hpadmod := PKCS7Pad_length_mod v
    have hpadge := PKCS7Pad_length_ge v hvne
    have hpadB := PKCS7Pad_isBytes v hvB
    have hctlen : (cbcEncrypt (E (truncKey key)) iv (PKCS7Pad v)).length =
        (PKCS7Pad v).length :=
      cbcEncrypt_length _ hElen iv _ hiv hpadmod
    have hctB : isBytes (cbcEncrypt (E (truncKey key)) iv (PKCS7Pad v)) = true := by
      unfold cbcEncrypt
      exact cbcEncBlocks_isBytes _ hElen hEB _ _ hiv hivB
        (fun b hb => chunk16_aligned_length _ _ le_rfl hpadmod b hb)
        (fun b hb => isBytes_subset (chunk16_subset _ _ b hb) hpadB)
    have hencRaw : Encrypt E sealF "aes-cbc" key iv v =
        .ok (b64Encode (cbcEncrypt (E (truncKey key)) iv (PKCS7Pad v)) ++ dd ++
          b64Encode iv) := by
      unfold Encrypt
      rw [if_pos rfl]
      unfold aesCbcEncrypt
      simp only [nullSerialize]
      rw [if_pos hkey, if_pos hiv]
    have hdec : aesCbcDecrypt D key false
        (b64Encode (cbcEncrypt (E (truncKey key)) iv (PKCS7Pad v)) ++ dd ++
          b64Encode iv) = .ok v := by
      unfold aesCbcDecrypt
      rw [if_pos hkey]
      rw [splitDD_two _ _ (b64Encode_no_dash _) (b64Encode_no_dash _)]
      rw [if_pos (show ([b64Encode (cbcEncrypt (E (truncKey key)) iv (PKCS7Pad v)),
        b64Encode iv]).length = 2 from rfl)]
      rw [show [b64Encode (cbcEncrypt (E (truncKey key)) iv (PKCS7Pad v)),
        b64Encode iv].getD 0 [] =
          b64Encode (cbcEncrypt (E (truncKey key)) iv (PKCS7Pad v)) from rfl]
      rw [show [b64Encode (cbcEncrypt (E (truncKey key)) iv (PKCS7Pad v)),
        b64Encode iv].getD 1 [] = b64Encode iv from rfl]
      rw [b64Decode_b64Encode _ hctB, b64Decode_b64Encode _ hivB]
      simp only []
      rw [if_neg (show ¬((cbcEncrypt (E (truncKey key)) iv (PKCS7Pad v)).length < 16)
        from by omega)]
      rw [if_neg (show ¬((cbcEncrypt (E (truncKey key)) iv
        (PKCS7Pad v)).length % 16 ≠ 0) from by omega)]
      rw [if_pos hiv]
      rw [cbcDecrypt_cbcEncrypt (E (truncKey key)) (D (truncKey key)) hD hElen iv _
        hiv hpadmod]
      rw [PKCS7Unpad_PKCS7Pad v hv]
      rfl
    constructor
    · -- Decrypt (Encrypt v) half
      intro t ht
      rw [hencRaw] at ht
      have ht2 := (Except.ok.inj ht)
      subst ht2
      unfold Decrypt
      rw [if_pos (show ("aes-cbc" : String) = "aes-cbc" from rfl)]
      exact hdec
    · -- DecryptAndVerify (EncryptAndSign v) half
      intro t ht
      have henc : EncryptAndSign E sealF hashV bsV "aes-cbc" key signKey iv v =
          .ok (MessageVerifier.Generate hashV bsV signKey nullSerialize
            (b64Encode (cbcEncrypt (E (truncKey key)) iv (PKCS7Pad v)) ++ dd ++
              b64Encode iv)) := by
        unfold EncryptAndSign
        rw [if_neg (show ¬(("aes-cbc" : String) = "aes-256-gcm") from by decide),
          if_neg hsk, hencRaw]
      rw [henc] at ht
      have ht2 := (Except.ok.inj ht)
      subst ht2
      have hinnerB : isBytes (b64Encode (cbcEncrypt (E (truncKey key)) iv
          (PKCS7Pad v)) ++ dd ++ b64Encode iv) = true := by
        rw [isBytes_append, isBytes_append]
        rw [b64Encode_isBytes, b64Encode_isBytes]
        rfl
      have hver : MessageVerifier.Verify hashV bsV signKey
          (MessageVerifier.Generate hashV bsV signKey nullSerialize
            (b64Encode (cbcEncrypt (E (truncKey key)) iv (PKCS7Pad v)) ++ dd ++
              b64Encode iv)) =
          .ok (b64Encode (cbcEncrypt (E (truncKey key)) iv (PKCS7Pad v)) ++ dd ++
            b64Encode iv) := by
        unfold MessageVerifier.Generate
        simp only [nullSerialize]
        rw [Verify_ok_of_match hashV bsV signKey _ hsk (b64Encode_no_dash _)]
        rw [b64DecodeLoose_b64Encode _ hinnerB]
      unfold DecryptAndVerify Decrypt
      rw [if_neg (show ¬(("aes-cbc" : String) = "aes-256-gcm") from by decide)]
      rw [hver]
      simp only []
      rw [if_pos trivial]
      exact hdec
  · -- authenticated-encryption (GCM) mode
    intro hopen hsealB hnonce hnonceB
    have hAB : isBytes ((sealF (truncKey key) nonce v).take
        ((sealF (truncKey key) nonce v).length - 16)) = true :=
      isBytes_subset (List.take_subset _ _) hsealB
    have hTB : isBytes ((sealF (truncKey key) nonce v).drop
        ((sealF (truncKey key) nonce v).length - 16)) = true :=
      isBytes_subset (List.drop_subset _ _) hsealB
    have hgenc : Encrypt E sealF "aes-256-gcm" key nonce v =
        .ok (b64Encode ((sealF (truncKey key) nonce v).take
              ((sealF (truncKey key) nonce v).length - 16)) ++ dd ++
            b64Encode nonce ++ dd ++
            b64Encode ((sealF (truncKey key) nonce v).drop
              ((sealF (truncKey key) nonce v).length - 16))) := by
      unfold Encrypt
      rw [if_neg (show ¬(("aes-256-gcm" : String) = "aes-cbc") from by decide),
        if_pos rfl]
      unfold aesGCMEncrypt
      simp only [nullSerialize]
      rw [if_pos hkey, if_pos hnonce]
    have hgdec : aesGCMDecrypt openF key
        (b64Encode ((sealF (truncKey key) nonce v).take
            ((sealF (truncKey key) nonce v).length - 16)) ++ dd ++
          b64Encode nonce ++ dd ++
          b64Encode ((sealF (truncKey key) nonce v).drop
            ((sealF (truncKey key) nonce v).length - 16))) = .ok v := by
      unfold aesGCMDecrypt
      rw [if_pos hkey]
      rw [splitDDN3_three _ _ _ (b64Encode_no_dash _) (b64Encode_no_dash _)]
      rw [if_pos (show ([b64Encode ((sealF (truncKey key) nonce v).take
          ((sealF (truncKey key) nonce v).length - 16)), b64Encode nonce,
          b64Encode ((sealF (truncKey key) nonce v).drop
          ((sealF (truncKey key) nonce v).length - 16))]).length = 3 from rfl)]
      rw [show [b64Encode ((sealF (truncKey key) nonce v).take
          ((sealF (truncKey key) nonce v).length - 16)), b64Encode nonce,
          b64Encode ((sealF (truncKey key) nonce v).drop
          ((sealF (truncKey key) nonce v).length - 16))].getD 0 [] =
        b64Encode ((sealF (truncKey key) nonce v).take
          ((sealF (truncKey key) nonce v).length - 16)) from rfl]
      rw [show [b64Encode ((sealF (truncKey key) nonce v).take
          ((sealF (truncKey key) nonce v).length - 16)), b64Encode nonce,
          b64Encode ((sealF (truncKey key) nonce v).drop
          ((sealF (truncKey key) nonce v).length - 16))].getD 1 [] =
        b64Encode nonce from rfl]
      rw [show [b64Encode ((sealF (truncKey key) nonce v).take
          ((sealF (truncKey key) nonce v).length - 16)), b64Encode nonce,
          b64Encode ((sealF (truncKey key) nonce v).drop
          ((sealF (truncKey key) nonce v).length - 16))].getD 2 [] =
        b64Encode ((sealF (truncKey key) nonce v).drop
          ((sealF (truncKey key) nonce v).length - 16)) from rfl]
      rw [b64Decode_b64Encode _ hAB, b64Decode_b64Encode _ hnonceB,
        b64Decode_b64Encode _ hTB]
      simp only []
      rw [if_pos hnonce]
      rw [List.take_append_drop]
      rw [hopen]
    constructor
    · -- Decrypt (Encrypt v) half
      intro t ht
      rw [hgenc] at ht
      have ht2 := (Except.ok.inj ht)
      subst ht2
      unfold Decrypt
      rw [if_neg (show ¬(("aes-256-gcm" : String) = "aes-cbc") from by decide),
        if_pos rfl]
      exact hgdec
    · -- DecryptAndVerify (EncryptAndSign v) half
      intro t ht
      have henc : EncryptAndSign E sealF hashV bsV "aes-256-gcm" key signKey nonce v =
          .ok (b64Encode ((sealF (truncKey key) nonce v).take
                ((sealF (truncKey key) nonce v).length - 16)) ++ dd ++
              b64Encode nonce ++ dd ++
              b64Encode ((sealF (truncKey key) nonce v).drop
                ((sealF (truncKey key) nonce v).length - 16))) := by
        unfold EncryptAndSign
        rw [if_pos rfl]
        exact hgenc
      rw [henc] at ht
      have ht2 := (Except.ok.inj ht)
      subst ht2
      unfold DecryptAndVerify
      rw [if_pos rfl]
      exact hgdec

/-- The block cipher used in concrete instantiations: byte-reversal on a
16-byte block (self-inverse, length- and byte-preserving). -/
def cexCipher : List Nat → List Nat → List Nat := fun _ b => b.reverse

/-- The AEAD used in concrete instantiations: append a 16-byte zero "tag". -/
def cexSeal : List Nat → List Nat → List Nat → List Nat :=
  fun _ _ p => p ++ List.replicate 16 0

/-- Its opener: strip the 16-byte tag. -/
def cexOpen : List Nat → List Nat → List Nat → Option (List Nat) :=
  fun _ _ c => some (c.take (c.length - 16))

/-- Claim C1, counterexample: With a perfectly invertible block cipher, a
fully valid CBC configuration and the pass-through serializer, the pipeline
silently corrupts the 16-byte payload consisting of fifteen spaces and a
final `0x01` byte: `DecryptAndVerify (EncryptAndSign v)` succeeds but returns
the fifteen spaces, not `v` — the broken padding codec strips a real data
byte. -/
theorem C1_roundtrip_counterexample :
    (EncryptAndSign cexCipher cexSeal sha1 64 "aes-cbc" (List.replicate 32 0) [107]
        (List.replicate 16 0) (List.replicate 15 32 ++ [1])).bind
      (DecryptAndVerify cexCipher cexOpen sha1 64 "aes-cbc"
        (List.replicate 32 0) [107] false) =
      .ok (List.replicate 15 32) ∧
    (List.replicate 15 32 : List Nat) ≠ List.replicate 15 32 ++ [1] := by
  exact ⟨by decide, by decide⟩

/-- Claim C1, amended, witness: concrete round trips through both halves of
both modes. -/
theorem C1_roundtrip_witness :
    Decrypt cexCipher cexOpen "aes-cbc" (List.replicate 32 0) false
        ((Encrypt cexCipher cexSeal "aes-cbc" (List.replicate 32 0)
          (List.replicate 16 0) [97, 98]).toOption.getD []) = .ok [97, 98] ∧
    DecryptAndVerify cexCipher cexOpen sha1 64 "aes-cbc" (List.replicate 32 0) [107]
        false ((EncryptAndSign cexCipher cexSeal sha1 64 "aes-cbc"
          (List.replicate 32 0) [107] (List.replicate 16 0) [97, 98]).toOption.getD [])
      = .ok [97, 98] ∧
    Decrypt cexCipher cexOpen "aes-256-gcm" (List.replicate 32 0) false
        ((Encrypt cexCipher cexSeal "aes-256-gcm" (List.replicate 32 0)
          (List.replicate 12 0) [97, 98]).toOption.getD []) = .ok [97, 98] ∧
    DecryptAndVerify cexCipher cexOpen sha1 64 "aes-256-gcm" (List.replicate 32 0)
        [107] false ((EncryptAndSign cexCipher cexSeal sha1 64 "aes-256-gcm"
          (List.replicate 32 0) [107] (List.replicate 12 0) [97, 98]).toOption.getD [])
      = .ok [97, 98] := by
  have h := C1_roundtrip_amended cexCipher cexCipher cexSeal cexOpen sha1 64
    (List.replicate 32 0) [107] (List.replicate 16 0) (List.replicate 12 0) [97, 98]
    (by decide) (by decide) (by decide)
  have hcbc := h.1 (fun b _ => by simp [cexCipher]) (fun b hb => by simp [cexCipher, hb])
    (fun b _ hB => by
      simp only [cexCipher, isBytes, List.all_eq_true, decide_eq_true_eq] at hB ⊢
      intro x hx
      exact hB x (List.mem_reverse.mp hx))
    (by decide) (by decide) (by decide)
  have hgcm := h.2 (by decide) (by decide) (by decide) (by decide)
  refine ⟨?_, ?_, ?_, ?_⟩
  · exact hcbc.1 ((Encrypt cexCipher cexSeal "aes-cbc" (List.replicate 32 0)
      (List.replicate 16 0) [97, 98]).toOption.getD []) (by decide)
  · exact hcbc.2 ((EncryptAndSign cexCipher cexSeal sha1 64 "aes-cbc"
      (List.replicate 32 0) [107] (List.replicate 16 0) [97, 98]).toOption.getD [])
      (by decide)
  · exact hgcm.1 ((Encrypt cexCipher cexSeal "aes-256-gcm" (List.replicate 32 0)
      (List.replicate 12 0) [97, 98]).toOption.getD []) (by decide)
  · exact hgcm.2 ((EncryptAndSign cexCipher cexSeal sha1 64 "aes-256-gcm"
      (List.replicate 32 0) [107] (List.replicate 12 0) [97, 98]).toOption.getD [])
      (by decide)
